import Mathlib

/-!
Verification of the Decision Commitment & Policy Enforcement Pipeline of
contextgraph-os-core: a shallow embedding in Lean 4 of the content-addressable
identity system (src/core/identity/content-address.ts), the policy schema and
evaluation engine (src/policy/schema.ts, src/policy/evaluator.ts), the decision
lifecycle state machine (src/decision/lifecycle.ts), the policy conflict
resolver (src/safety/conflict-resolver.ts) and the approval queue
(src/safety/approval.ts), together with theorems settling the specification
claims about them.

Modelling conventions:
- TypeScript strings are Lean `String`; ISO-8601 timestamps are modelled by
  their epoch-millisecond value as `Int` (the code only ever compares them via
  `new Date(x).getTime()` or lexicographically, which agree on the
  millisecond abstraction).
- JavaScript objects/values fed to the content-address hasher are modelled by
  the inductive `JsValue`; JS numbers are restricted to integers (float
  rendering is orthogonal to every claim).
- The SHA-2 hash from node:crypto is external to the repository, so it is an
  explicit function parameter `hashHex : String → String → String`
  (algorithm → canonical text → hex digest); every theorem about addresses is
  proved for all such functions.
- Methods that throw are embedded as functions into `Except` with a structured
  error type whose constructors carry exactly the data interpolated into the
  thrown message.
- In-memory `Map`s are association lists updated like JS `Map.set` (in-place
  replacement of an existing key, append otherwise).
-/

namespace ContextGraph

/-- Content addresses are strings of the shape algorithm:hash. -/
abbrev ContentAddress := String

/-- Timestamps, abstracted to their epoch-millisecond value. -/
abbrev Timestamp := Int

/-! ## Content-addressable identity (src/core/identity/content-address.ts) -/

/-- A JavaScript value as consumed by `canonicalize`; JS numbers are
restricted to integers, which covers every value the pipeline hashes. -/
inductive JsValue where
  | vnull
  | str (s : String)
  | num (n : Int)
  | bool (b : Bool)
  | arr (elems : List JsValue)
  | obj (fields : List (String × JsValue))

/-- Byte-wise comparison of characters, mirroring how JS compares strings as
sequences of code units. -/
def strLeAux (xs ys : List Char) : Bool :=
  match xs, ys with
  | [], _ => true
  | _ :: _, [] => false
  | c :: cs, d :: ds => if c = d then strLeAux cs ds else decide (c.val < d.val)

/-- JS string order (the order used by Object.keys(obj).sort()). -/
def strLe (a b : String) : Bool := strLeAux a.data b.data

/-- Order on rendered object fields by key, in JS string order. -/
def keyLe (a b : String × String) : Prop := strLe a.1 b.1 = true

instance : DecidableRel keyLe := fun a b =>
  inferInstanceAs (Decidable (strLe a.1 b.1 = true))

/-- Lower-case hex digit, as produced by JSON escapes. -/
def hexDigit (n : Nat) : Char :=
  if n < 10 then Char.ofNat (48 + n) else Char.ofNat (87 + n)

/-- One character of JSON.stringify output for a string. -/
def jsonEscapeChar (c : Char) : String :=
  if c = '"' then "\\\""
  else if c = '\\' then "\\\\"
  else if c = '\n' then "\\n"
  else if c = '\r' then "\\r"
  else if c = '\t' then "\\t"
  else if c.val < 32 then
    "\\u00" ++ String.mk [hexDigit (c.val.toNat / 16), hexDigit (c.val.toNat % 16)]
  else String.mk [c]

/-- JSON.stringify for a string value (used for string leaves and for object
keys in `canonicalize`). -/
def jsonStringifyString (s : String) : String :=
  "\"" ++ String.join (s.data.map jsonEscapeChar) ++ "\""

/-- Rendering of one sorted object field as key:value. -/
def renderField (p : String × String) : String :=
  jsonStringifyString p.1 ++ ":" ++ p.2

mutual
/-- The canonicalize function of content-address.ts: null/undefined render as
null, strings via JSON.stringify, numbers and booleans via String(), arrays
elementwise in order, and objects as brace-wrapped key:value pairs with the
keys sorted. JS objects have distinct keys, so sorting the (key, rendered
value) pairs by key coincides with the source's sort of Object.keys followed
by lookup. -/
def canonicalize : JsValue → String
  | .vnull => "null"
  | .str s => jsonStringifyString s
  | .num n => toString n
  | .bool b => if b then "true" else "false"
  | .arr elems => "[" ++ String.intercalate "," (canonicalizeList elems) ++ "]"
  | .obj fields =>
      "\x7b" ++
        String.intercalate ","
          ((List.insertionSort keyLe (canonicalizeFields fields)).map renderField) ++
        "\x7d"

/-- Canonicalization of the elements of an array, in order. -/
def canonicalizeList : List JsValue → List String
  | [] => []
  | v :: vs => canonicalize v :: canonicalizeList vs

/-- Canonicalization of each field value of an object, keeping source order
and pairing with the key. -/
def canonicalizeFields : List (String × JsValue) → List (String × String)
  | [] => []
  | (k, v) :: fs => (k, canonicalize v) :: canonicalizeFields fs
end

/-- Configuration for content addressing; truncateLength mirrors the TS
optional field, with the JS falsiness of 0 reproduced in
`computeContentAddress`. -/
structure ContentAddressConfig where
  algorithm : String := "sha256"
  truncateLength : Option Nat := none
deriving DecidableEq

/-- The default configuration (sha256, no truncation). -/
def DEFAULT_CONFIG : ContentAddressConfig := {}

/-- computeContentAddress from content-address.ts, parameterized by the
external node:crypto digest `hashHex` (algorithm → input → hex). -/
def computeContentAddress (hashHex : String → String → String)
    (config : ContentAddressConfig) (content : JsValue) : ContentAddress :=
  let canonical := canonicalize content
  let hash := hashHex config.algorithm canonical
  let finalHash :=
    match config.truncateLength with
    | some n => if n = 0 then hash else hash.take n
    | none => hash
  config.algorithm ++ ":" ++ finalHash

mutual
/-- Two JS values contain the same logical content up to the order of object
fields: equal leaves, elementwise-equivalent arrays, and objects whose field
lists match up to a permutation (with recursively equivalent values and the
distinct keys every JS object has). -/
inductive KeyPermEquiv : JsValue → JsValue → Prop where
  | vnull : KeyPermEquiv .vnull .vnull
  | str (s : String) : KeyPermEquiv (.str s) (.str s)
  | num (n : Int) : KeyPermEquiv (.num n) (.num n)
  | bool (b : Bool) : KeyPermEquiv (.bool b) (.bool b)
  | arr {xs ys : List JsValue} : KPEList xs ys → KeyPermEquiv (.arr xs) (.arr ys)
  | obj {l₁ l₂ l₃ : List (String × JsValue)} :
      KPEFields l₁ l₂ → l₂.Perm l₃ → (l₁.map Prod.fst).Nodup →
      KeyPermEquiv (.obj l₁) (.obj l₃)

/-- Elementwise `KeyPermEquiv` on lists. -/
inductive KPEList : List JsValue → List JsValue → Prop where
  | nil : KPEList [] []
  | cons {x y : JsValue} {xs ys : List JsValue} :
      KeyPermEquiv x y → KPEList xs ys → KPEList (x :: xs) (y :: ys)

/-- Fieldwise equivalence: same keys in the same positions, recursively
equivalent values. -/
inductive KPEFields : List (String × JsValue) → List (String × JsValue) → Prop where
  | nil : KPEFields [] []
  | cons {p q : String × JsValue} {ps qs : List (String × JsValue)} :
      p.1 = q.1 → KeyPermEquiv p.2 q.2 → KPEFields ps qs →
      KPEFields (p :: ps) (q :: qs)
end

/-! ## Policy schema (src/policy/schema.ts) -/

/-- Enforcement modes for policy violations. -/
inductive EnforcementMode where
  | BLOCK
  | ANNOTATE
  | ESCALATE
  | SHADOW
deriving DecidableEq

/-- Rule format/language for policy rules. -/
inductive RuleFormat where
  | javascript
  | jsonLogic
  | rego
  | custom
  | expression
deriving DecidableEq

/-- Policy status. -/
inductive PolicyStatus where
  | DRAFT
  | ACTIVE
  | SUSPENDED
  | DEPRECATED
  | SUPERSEDED
deriving DecidableEq

/-- Activation window for policy versioning (timezone omitted: it is never
read by the pipeline). -/
structure ActivationWindow where
  activatesAt : Timestamp
  expiresAt : Option Timestamp := none
deriving DecidableEq

/-- A policy rule (the testing-only example lists are omitted: the evaluator
never reads them). -/
structure PolicyRule where
  format : RuleFormat
  expression : String
  explanation : Option String := none
deriving DecidableEq

/-- The fields of a PolicyDefinition read by the evaluation engine
(scope/tags/priority/supersedesId/metadata are never read by
evaluatePolicy/evaluateAll and are carried by the conflict-resolver's own
policy type below). -/
structure PolicyDefinition where
  name : String
  description : String := ""
  rule : PolicyRule
  enforcement : EnforcementMode
  version : String
  status : PolicyStatus
  activation : ActivationWindow
deriving DecidableEq

/-- The evaluation-context fields read by the embedded engine: the decision id
and type and the evaluation timestamp. The actor/contexts/extra record fields
are consumed only by concrete rule evaluators, which are abstract functions of
this context in the embedding. -/
structure PolicyEvaluationContext where
  decisionId : ContentAddress
  decisionType : String
  timestamp : Timestamp
deriving DecidableEq

/-- isPolicyActive from schema.ts: status must be ACTIVE and the timestamp
must lie in the half-open window from activatesAt (inclusive) to expiresAt
(exclusive), the upper bound applying only when expiresAt is set. -/
def isPolicyActive (policy : PolicyDefinition) (asOf : Timestamp) : Bool :=
  if policy.status ≠ PolicyStatus.ACTIVE then false
  else if asOf < policy.activation.activatesAt then false
  else
    match policy.activation.expiresAt with
    | some expiry => if asOf ≥ expiry then false else true
    | none => true

/-! ## Policy evaluation engine (src/policy/evaluator.ts) -/

/-- Verdict result type. -/
inductive VerdictResult where
  | ALLOW
  | DENY
  | ESCALATE
  | ANNOTATE
deriving DecidableEq

/-- Severity level of a policy violation record. -/
inductive ViolationSeverity where
  | info
  | warning
  | error
  | critical
deriving DecidableEq

/-- Policy violation record. -/
structure PolicyViolation where
  policyId : ContentAddress
  message : String
  severity : ViolationSeverity
deriving DecidableEq

/-- Result of evaluating a single policy. -/
structure PolicyVerdictResult where
  passed : Bool
  enforcement : EnforcementMode
  explanation : String
  annotations : List String
  error : Option String := none
deriving DecidableEq

/-- Entry for a single policy evaluation in the verdict. -/
structure PolicyVerdictEntry where
  policyId : ContentAddress
  policyName : String
  policyVersion : String
  verdict : PolicyVerdictResult
deriving DecidableEq

/-- The id-free payload of a DecisionVerdict (the verdictData object of
evaluateAll, from which the verdict id is hashed). -/
structure VerdictData where
  decisionId : ContentAddress
  result : VerdictResult
  scope : String
  policyResults : List PolicyVerdictEntry
  blockingPolicies : List ContentAddress
  escalatingPolicies : List ContentAddress
  annotations : List String
  violations : List PolicyViolation
  evaluatedAt : Timestamp
  evaluationTimeMs : Int
deriving DecidableEq

/-- Complete verdict for a decision after all policies evaluated. -/
structure DecisionVerdict extends VerdictData where
  id : ContentAddress
deriving DecidableEq

/-- A rule evaluator: a predicate over (expression, context) that can fail
(a thrown JS exception is an error value). -/
abbrev RuleEvaluator := String → PolicyEvaluationContext → Except String Bool

/-- The registry of rule evaluators keyed by format. -/
abbrev RuleEvaluatorRegistry := RuleFormat → Option RuleEvaluator

/-- Rendering of a rule format, as interpolated into the missing-evaluator
message. -/
def RuleFormat.render : RuleFormat → String
  | .javascript => "javascript"
  | .jsonLogic => "json-logic"
  | .rego => "rego"
  | .custom => "custom"
  | .expression => "expression"

/-- The registry's evaluate method: dispatch to the evaluator registered for
the format; a missing format throws (inside evaluatePolicy's try block). -/
def registryEvaluate (registry : RuleEvaluatorRegistry) (format : RuleFormat)
    (expression : String) (context : PolicyEvaluationContext) : Except String Bool :=
  match registry format with
  | none => .error ("No evaluator registered for format: " ++ format.render)
  | some evaluator => evaluator expression context

namespace PolicyEvaluator

/-- evaluatePolicy from evaluator.ts: an inactive policy vacuously passes;
otherwise the rule is dispatched through the registry, a false result is a
violation with the policy's own enforcement, and any thrown error is caught
and converted to a failed BLOCK result carrying the message (the fail-safe).
The source wraps the policy name in single quotes inside the default
violation explanation; the quotes are elided here. -/
def evaluatePolicy (registry : RuleEvaluatorRegistry) (policy : PolicyDefinition)
    (context : PolicyEvaluationContext) : PolicyVerdictResult :=
  if ¬ isPolicyActive policy context.timestamp then
    { passed := true
      enforcement := policy.enforcement
      explanation := "Policy not active at evaluation time"
      annotations := [] }
  else
    match registryEvaluate registry policy.rule.format policy.rule.expression context with
    | .ok true =>
        { passed := true
          enforcement := policy.enforcement
          explanation := policy.rule.explanation.getD "Policy passed"
          annotations := [] }
    | .ok false =>
        { passed := false
          enforcement := policy.enforcement
          explanation := policy.rule.explanation.getD ("Policy " ++ policy.name ++ " violated")
          annotations := ["POLICY_VIOLATION:" ++ policy.name] }
    | .error errorMessage =>
        { passed := false
          enforcement := EnforcementMode.BLOCK
          explanation := "Error evaluating policy: " ++ errorMessage
          annotations := ["POLICY_ERROR:" ++ policy.name]
          error := some errorMessage }

/-- The verdict entry evaluateAll pushes for one policy. -/
def mkEntry (registry : RuleEvaluatorRegistry) (policyIdOf : PolicyDefinition → ContentAddress)
    (context : PolicyEvaluationContext) (policy : PolicyDefinition) : PolicyVerdictEntry :=
  { policyId := policyIdOf policy
    policyName := policy.name
    policyVersion := policy.version
    verdict := evaluatePolicy registry policy context }

/-- Accumulator of the evaluateAll loop. -/
structure EvalAcc where
  policyResults : List PolicyVerdictEntry
  blockingPolicies : List ContentAddress
  escalatingPolicies : List ContentAddress
  allAnnotations : List String

/-- The body of the evaluateAll loop: every policy is evaluated (no
short-circuit); its entry and annotations are appended, and a failed result
adds the policy id to the blocking or escalating list according to the
result's enforcement. -/
def evalLoop (registry : RuleEvaluatorRegistry) (policyIdOf : PolicyDefinition → ContentAddress)
    (context : PolicyEvaluationContext) : List PolicyDefinition → EvalAcc
  | [] => ⟨[], [], [], []⟩
  | policy :: rest =>
      let policyId := policyIdOf policy
      let verdict := evaluatePolicy registry policy context
      let acc := evalLoop registry policyIdOf context rest
      { policyResults := mkEntry registry policyIdOf context policy :: acc.policyResults
        blockingPolicies :=
          if ¬ verdict.passed ∧ verdict.enforcement = EnforcementMode.BLOCK then
            policyId :: acc.blockingPolicies
          else acc.blockingPolicies
        escalatingPolicies :=
          if ¬ verdict.passed ∧ verdict.enforcement = EnforcementMode.ESCALATE then
            policyId :: acc.escalatingPolicies
          else acc.escalatingPolicies
        allAnnotations := verdict.annotations ++ acc.allAnnotations }

/-- evaluateAll from evaluator.ts. The policy id is computeContentAddress of
the policy's JS object and the verdict id is computeContentAddress of the
verdictData object; both are abstracted as the parameters policyIdOf and
verdictIdOf since no claim depends on the encoding. The two Date reads are
the parameters evaluatedAt and evaluationTimeMs. -/
def evaluateAll (registry : RuleEvaluatorRegistry)
    (policyIdOf : PolicyDefinition → ContentAddress)
    (verdictIdOf : VerdictData → ContentAddress)
    (policies : List PolicyDefinition) (context : PolicyEvaluationContext)
    (evaluatedAt : Timestamp) (evaluationTimeMs : Int) : DecisionVerdict :=
  let acc := evalLoop registry policyIdOf context policies
  let result : VerdictResult :=
    if acc.blockingPolicies.length > 0 then .DENY
    else if acc.escalatingPolicies.length > 0 then .ESCALATE
    else if acc.allAnnotations.length > 0 then .ANNOTATE
    else .ALLOW
  let violations : List PolicyViolation :=
    (acc.policyResults.filter (fun pr => ¬ pr.verdict.passed)).map
      (fun pr =>
        { policyId := pr.policyId
          message := pr.verdict.explanation
          severity :=
            if pr.verdict.enforcement = EnforcementMode.BLOCK then .critical else .warning })
  let verdictData : VerdictData :=
    { decisionId := context.decisionId
      result := result
      scope := context.decisionType
      policyResults := acc.policyResults
      blockingPolicies := acc.blockingPolicies
      escalatingPolicies := acc.escalatingPolicies
      annotations := acc.allAnnotations
      violations := violations
      evaluatedAt := evaluatedAt
      evaluationTimeMs := evaluationTimeMs }
  { toVerdictData := verdictData, id := verdictIdOf verdictData }

end PolicyEvaluator

/-! ## Decision lifecycle state machine (src/decision/lifecycle.ts) -/

/-- Decision lifecycle states. -/
inductive DecisionState where
  | PROPOSED
  | EVALUATED
  | COMMITTED
  | REJECTED
  | PENDING_APPROVAL
  | CANCELLED
deriving DecidableEq

/-- The VALID_TRANSITIONS table of lifecycle.ts: the three concluded states
are terminal, and PENDING_APPROVAL may move directly to COMMITTED. -/
def VALID_TRANSITIONS : DecisionState → List DecisionState
  | .PROPOSED => [.EVALUATED, .CANCELLED]
  | .EVALUATED => [.COMMITTED, .REJECTED, .PENDING_APPROVAL, .CANCELLED]
  | .PENDING_APPROVAL => [.COMMITTED, .REJECTED, .CANCELLED]
  | .COMMITTED => []
  | .REJECTED => []
  | .CANCELLED => []

/-- Decision action definition; parameters is the JS parameter record. -/
structure DecisionAction where
  type : String
  parameters : List (String × JsValue)
  targetId : Option ContentAddress := none

/-- Context reference for a decision (the usage literal union is carried as a
string; the 0-1 relevance score is carried as an integer-valued number). -/
structure DecisionContextRef where
  contextId : ContentAddress
  usage : String
  relevance : Option Int := none

/-- Approval information for escalated decisions. -/
structure DecisionApproval where
  decidedBy : ContentAddress
  decision : String
  justification : Option String := none
  decidedAt : Timestamp

/-- Complete decision record. -/
structure Decision where
  id : ContentAddress
  state : DecisionState
  action : DecisionAction
  proposedBy : ContentAddress
  contextRefs : List DecisionContextRef
  rationale : Option String := none
  verdict : Option DecisionVerdict := none
  alternativeIds : List ContentAddress
  proposedAt : Timestamp
  evaluatedAt : Option Timestamp := none
  concludedAt : Option Timestamp := none
  approval : Option DecisionApproval := none

/-- Input for proposing a new decision. -/
structure ProposeDecisionInput where
  action : DecisionAction
  proposedBy : ContentAddress
  contextRefs : List DecisionContextRef
  rationale : Option String := none
  alternativeIds : Option (List ContentAddress) := none

/-- The thrown errors of the state machine, with constructors carrying
exactly the data interpolated into the message at each throw site. -/
inductive DSError where
  | notFound (decisionId : ContentAddress)
  | invalidTransition (src : DecisionState) (tgt : DecisionState)
      (validTargets : List DecisionState)
  | notPendingApproval (decisionId : ContentAddress)
deriving DecidableEq

/-- The decisions map of the state machine. -/
abbrev DecisionMap := List (ContentAddress × Decision)

/-- Map lookup (JS Map.get). -/
def mapGet (m : DecisionMap) (k : ContentAddress) : Option Decision :=
  (m.find? (fun p => p.1 = k)).map (fun p => p.2)

/-- Map update (JS Map.set): replace in place when the key is present, append
otherwise. -/
def mapSet (m : DecisionMap) (k : ContentAddress) (v : Decision) : DecisionMap :=
  if m.any (fun p => p.1 = k) then
    m.map (fun p => if p.1 = k then (k, v) else p)
  else m ++ [(k, v)]

namespace DecisionStateMachine

/-- validateTransition of lifecycle.ts: the error names the current state, the
attempted target and the legal target list. -/
def validateTransition (src : DecisionState) (tgt : DecisionState) : Except DSError Unit :=
  if (VALID_TRANSITIONS src).contains tgt then .ok ()
  else .error (.invalidTransition src tgt (VALID_TRANSITIONS src))

/-- Encoding of a context reference as the JS object hashed by propose. -/
def encodeContextRef (r : DecisionContextRef) : JsValue :=
  .obj ([("contextId", .str r.contextId), ("usage", .str r.usage)] ++
    (match r.relevance with
     | some x => [("relevance", JsValue.num x)]
     | none => []))

/-- Encoding of a decision action as the JS object hashed by propose. -/
def encodeAction (a : DecisionAction) : JsValue :=
  .obj ([("type", .str a.type), ("parameters", .obj a.parameters)] ++
    (match a.targetId with
     | some t => [("targetId", JsValue.str t)]
     | none => []))

/-- The decisionData object whose content address becomes the decision id:
the PROPOSED-state content of the proposal (rationale included only when
supplied). -/
def encodeDecisionData (input : ProposeDecisionInput) (proposedAt : Timestamp) : JsValue :=
  .obj ([("state", .str "PROPOSED"),
         ("action", encodeAction input.action),
         ("proposedBy", .str input.proposedBy),
         ("contextRefs", .arr (input.contextRefs.map encodeContextRef)),
         ("alternativeIds", .arr ((input.alternativeIds.getD []).map JsValue.str)),
         ("proposedAt", .num proposedAt)] ++
    (match input.rationale with
     | some r => [("rationale", JsValue.str r)]
     | none => []))

/-- propose from lifecycle.ts: creates a new PROPOSED decision whose id is
the content address of the proposal data, and stores it under that id. -/
def propose (hashHex : String → String → String) (m : DecisionMap)
    (now : Timestamp) (input : ProposeDecisionInput) : DecisionMap × Decision :=
  let id := computeContentAddress hashHex DEFAULT_CONFIG (encodeDecisionData input now)
  let decision : Decision :=
    { id := id
      state := .PROPOSED
      action := input.action
      proposedBy := input.proposedBy
      contextRefs := input.contextRefs
      rationale := input.rationale
      alternativeIds := input.alternativeIds.getD []
      proposedAt := now }
  (mapSet m id decision, decision)

/-- The switch of evaluate on verdict.result: ALLOW and ANNOTATE stay in
EVALUATED, DENY auto-rejects, ESCALATE moves to PENDING_APPROVAL. -/
def nextStateFor : VerdictResult → DecisionState
  | .ALLOW => .EVALUATED
  | .ANNOTATE => .EVALUATED
  | .DENY => .REJECTED
  | .ESCALATE => .PENDING_APPROVAL

/-- The decision snapshot evaluate stores. -/
def evaluatedDecision (decision : Decision) (now : Timestamp)
    (verdict : DecisionVerdict) : Decision :=
  { decision with
      state := nextStateFor verdict.result
      verdict := some verdict
      evaluatedAt := some now
      concludedAt :=
        if nextStateFor verdict.result = .REJECTED then some now else decision.concludedAt }

/-- evaluate from lifecycle.ts: requires the current state to legally reach
EVALUATED, then records the verdict and evaluatedAt, computing the actual
next state from the verdict result (DENY concludes the decision). -/
def evaluate (m : DecisionMap) (now : Timestamp) (decisionId : ContentAddress)
    (verdict : DecisionVerdict) : Except DSError (DecisionMap × Decision) :=
  match mapGet m decisionId with
  | none => .error (.notFound decisionId)
  | some decision =>
      match validateTransition decision.state .EVALUATED with
      | .error e => .error e
      | .ok _ =>
          let updated := evaluatedDecision decision now verdict
          .ok (mapSet m decisionId updated, updated)

/-- commit from lifecycle.ts: validates the transition into COMMITTED and
replaces the stored decision with the committed snapshot. The transaction
ledger written alongside (start/complete/rollback records in a separate map)
is omitted: it never touches the decisions map, and nothing in the embedded
success path can fail after validation. -/
def commit (m : DecisionMap) (now : Timestamp) (decisionId : ContentAddress) :
    Except DSError (DecisionMap × Decision) :=
  match mapGet m decisionId with
  | none => .error (.notFound decisionId)
  | some decision =>
      match validateTransition decision.state .COMMITTED with
      | .error e => .error e
      | .ok _ =>
          let updated : Decision := { decision with state := .COMMITTED, concludedAt := some now }
          .ok (mapSet m decisionId updated, updated)

/-- reject from lifecycle.ts: sets concludedAt and lets an explicit reason
override the stored rationale. -/
def reject (m : DecisionMap) (now : Timestamp) (decisionId : ContentAddress)
    (reason : Option String) : Except DSError (DecisionMap × Decision) :=
  match mapGet m decisionId with
  | none => .error (.notFound decisionId)
  | some decision =>
      match validateTransition decision.state .REJECTED with
      | .error e => .error e
      | .ok _ =>
          let updated : Decision :=
            { decision with
                state := .REJECTED
                concludedAt := some now
                rationale := (reason.orElse (fun _ => decision.rationale)) }
          .ok (mapSet m decisionId updated, updated)

/-- approve from lifecycle.ts: unlike every other operation it does not go
through validateTransition; it throws a bare not-pending-approval error
whenever the state differs from PENDING_APPROVAL, then records the approval
and returns the decision to EVALUATED. -/
def approve (m : DecisionMap) (now : Timestamp) (decisionId : ContentAddress)
    (approvedBy : ContentAddress) (justification : Option String) :
    Except DSError (DecisionMap × Decision) :=
  match mapGet m decisionId with
  | none => .error (.notFound decisionId)
  | some decision =>
      if decision.state ≠ .PENDING_APPROVAL then
        .error (.notPendingApproval decisionId)
      else
        let approval : DecisionApproval :=
          { decidedBy := approvedBy
            decision := "approved"
            justification := justification
            decidedAt := now }
        let updated : Decision := { decision with state := .EVALUATED, approval := some approval }
        .ok (mapSet m decisionId updated, updated)

/-- cancel from lifecycle.ts: sets concludedAt and lets an explicit reason
override the stored rationale. -/
def cancel (m : DecisionMap) (now : Timestamp) (decisionId : ContentAddress)
    (reason : Option String) : Except DSError (DecisionMap × Decision) :=
  match mapGet m decisionId with
  | none => .error (.notFound decisionId)
  | some decision =>
      match validateTransition decision.state .CANCELLED with
      | .error e => .error e
      | .ok _ =>
          let updated : Decision :=
            { decision with
                state := .CANCELLED
                concludedAt := some now
                rationale := (reason.orElse (fun _ => decision.rationale)) }
          .ok (mapSet m decisionId updated, updated)

end DecisionStateMachine

/-- isTerminalState from lifecycle.ts. -/
def isTerminalState (state : DecisionState) : Bool :=
  (VALID_TRANSITIONS state).length = 0

/-- canCommit from lifecycle.ts (an exported helper that commit itself never
consults). -/
def canCommit (decision : Decision) : Bool :=
  decision.state = DecisionState.EVALUATED ∧
    (decision.verdict.map (fun v => v.result)) ≠ some VerdictResult.DENY

/-- One call against the state machine, for reasoning about reachable
stores. -/
inductive LifecycleOp where
  | propose (input : ProposeDecisionInput) (now : Timestamp)
  | evaluate (decisionId : ContentAddress) (verdict : DecisionVerdict) (now : Timestamp)
  | commit (decisionId : ContentAddress) (now : Timestamp)
  | reject (decisionId : ContentAddress) (reason : Option String) (now : Timestamp)
  | approve (decisionId : ContentAddress) (approvedBy : ContentAddress)
      (justification : Option String) (now : Timestamp)
  | cancel (decisionId : ContentAddress) (reason : Option String) (now : Timestamp)

/-- Whether an operation is one of the five transition calls (everything but
propose). -/
def LifecycleOp.isTransition : LifecycleOp → Bool
  | .propose _ _ => false
  | _ => true

/-- Effect of one call on the decisions map; a thrown call leaves the store
unchanged. -/
def applyOp (hashHex : String → String → String) (m : DecisionMap) :
    LifecycleOp → DecisionMap
  | .propose input now => (DecisionStateMachine.propose hashHex m now input).1
  | .evaluate id v now =>
      match DecisionStateMachine.evaluate m now id v with
      | .ok (next, _) => next
      | .error _ => m
  | .commit id now =>
      match DecisionStateMachine.commit m now id with
      | .ok (next, _) => next
      | .error _ => m
  | .reject id reason now =>
      match DecisionStateMachine.reject m now id reason with
      | .ok (next, _) => next
      | .error _ => m
  | .approve id by_ just now =>
      match DecisionStateMachine.approve m now id by_ just with
      | .ok (next, _) => next
      | .error _ => m
  | .cancel id reason now =>
      match DecisionStateMachine.cancel m now id reason with
      | .ok (next, _) => next
      | .error _ => m

/-- Running a sequence of calls against the state machine. -/
def runOps (hashHex : String → String → String) (m : DecisionMap) :
    List LifecycleOp → DecisionMap
  | [] => m
  | op :: ops => runOps hashHex (applyOp hashHex m op) ops

/-! ## Policy conflict resolver (src/safety/conflict-resolver.ts) -/

/-- Policy scope types (the resolver only distinguishes GLOBAL from the
rest). -/
inductive PolicyScopeType where
  | GLOBAL
  | DECISION_TYPE
  | ACTOR
  | CONTEXT
  | ARTIFACT
  | CUSTOM
deriving DecidableEq

/-- Scope definition as read by the conflict resolver. -/
structure RScope where
  type : PolicyScopeType
  pattern : Option String := none
deriving DecidableEq

/-- The policy fields read by the conflict resolver (its schema's
PolicyDefinition carries an id; metadata.priority and metadata.createdAt are
the two metadata entries the resolution strategies read). -/
structure RPolicy where
  id : ContentAddress
  name : String
  scope : RScope
  enforcement : EnforcementMode
  metaPriority : Option Int := none
  metaCreatedAt : Option String := none
deriving DecidableEq

/-- Conflict type. -/
inductive ConflictType where
  | CONTRADICTION
  | OVERLAP
  | CIRCULAR
  | AMBIGUOUS_PRIORITY
  | RESOURCE_CONTENTION
deriving DecidableEq

/-- Resolution strategy. -/
inductive ResolutionStrategy where
  | MOST_SPECIFIC
  | MOST_RESTRICTIVE
  | MOST_PERMISSIVE
  | PRIORITY
  | NEWEST
  | ESCALATE
  | CUSTOM
deriving DecidableEq

/-- Policy conflict (the optional triggeringAction of
detectConflictsForAction is not modelled; detectConflicts never sets it). -/
structure PolicyConflict where
  id : ContentAddress
  type : ConflictType
  policies : List RPolicy
  scope : String
  description : String
  severity : Nat
  detectedAt : Timestamp
deriving DecidableEq

/-- Conflict resolution result. -/
structure ResolutionResult where
  resolved : Bool
  strategy : ResolutionStrategy
  winningPolicy : Option RPolicy := none
  explanation : String
  recommendation : Option String := none
  needsEscalation : Bool
deriving DecidableEq

/-- Resolution rule. -/
structure ResolutionRule where
  id : String
  conflictTypes : List ConflictType
  strategy : ResolutionStrategy
  priority : Int
  resolver : Option (PolicyConflict → ResolutionResult) := none

/-- The data hashed into a conflict id. -/
structure ConflictData where
  type : ConflictType
  policyIds : List ContentAddress
  scope : String
deriving DecidableEq

namespace ConflictResolver

/-- JS String.prototype.split at the colon separator. -/
def splitColonAux (acc : List Char) : List Char → List String
  | [] => [String.mk acc.reverse]
  | c :: cs =>
      if c = ':' then String.mk acc.reverse :: splitColonAux [] cs
      else splitColonAux (c :: acc) cs

/-- Split a scope string on colons (never returns an empty list, like JS
split). -/
def splitColon (s : String) : List String := splitColonAux [] s.data

/-- The indexed loop of scopeMatches, advancing through pattern and target
parts together: a star in last position matches everything, an interior star
skips one segment, and a missing target segment only fails against a
non-star pattern segment. A completed loop implies the final
pattern-length-at-most-target-length check of the source. -/
def partsMatch : List String → List String → Bool
  | [], _ => true
  | p :: ps, ts =>
      if p = "*" then
        if ps.isEmpty then true
        else partsMatch ps ts.tail
      else
        match ts with
        | [] => false
        | t :: ts2 => if p = t then partsMatch ps ts2 else false

/-- scopeMatches from conflict-resolver.ts. -/
def scopeMatches (pattern target : String) : Bool :=
  if pattern = "*" then true
  else partsMatch (splitColon pattern) (splitColon target)

/-- findOverlappingScope from conflict-resolver.ts: GLOBAL overlaps
everything as *, equal patterns overlap as themselves, and containment in
either direction yields the contained pattern. -/
def findOverlappingScope (p1 p2 : RPolicy) : Option String :=
  let scope1 := p1.scope.pattern.getD "*"
  let scope2 := p2.scope.pattern.getD "*"
  if p1.scope.type = PolicyScopeType.GLOBAL ∨ p2.scope.type = PolicyScopeType.GLOBAL then
    some "*"
  else if scope1 = scope2 then some scope1
  else if scopeMatches scope1 scope2 then some scope2
  else if scopeMatches scope2 scope1 then some scope1
  else none

/-- isContradiction: one side restrictive (BLOCK or ESCALATE), the other
ANNOTATE. -/
def isContradiction (p1 p2 : RPolicy) : Bool :=
  let restrictive := [EnforcementMode.BLOCK, EnforcementMode.ESCALATE]
  let permissive := [EnforcementMode.ANNOTATE]
  (restrictive.contains p1.enforcement ∧ permissive.contains p2.enforcement) ∨
    (permissive.contains p1.enforcement ∧ restrictive.contains p2.enforcement)

/-- isOverlapConflict: any difference in enforcement. -/
def isOverlapConflict (p1 p2 : RPolicy) : Bool :=
  p1.enforcement ≠ p2.enforcement

/-- hasAmbiguousPriority: equal metadata priority (defaulting to 0) plus an
overlap conflict. -/
def hasAmbiguousPriority (p1 p2 : RPolicy) : Bool :=
  p1.metaPriority.getD 0 = p2.metaPriority.getD 0 ∧ isOverlapConflict p1 p2

/-- The severity map of createConflict. -/
def severityOf : ConflictType → Nat
  | .CONTRADICTION => 10
  | .OVERLAP => 5
  | .CIRCULAR => 8
  | .AMBIGUOUS_PRIORITY => 3
  | .RESOURCE_CONTENTION => 4

/-- createConflict from conflict-resolver.ts; the content address of the
conflictData object is abstracted as conflictIdOf and the Date read as
now. -/
def createConflict (conflictIdOf : ConflictData → ContentAddress) (now : Timestamp)
    (type : ConflictType) (policies : List RPolicy) (scope : String)
    (description : String) : PolicyConflict :=
  { id := conflictIdOf { type := type, policyIds := policies.map (fun p => p.id), scope := scope }
    type := type
    policies := policies
    scope := scope
    description := description
    severity := severityOf type
    detectedAt := now }

/-- The conflicts one ordered pair contributes to detectConflicts: nothing
without overlapping scope or past the scope filter (a present, non-empty
filter that the overlap does not match skips the pair), otherwise a
CONTRADICTION, an OVERLAP and an AMBIGUOUS_PRIORITY conflict, each pushed
when its check fires. -/
def conflictsForPair (conflictIdOf : ConflictData → ContentAddress) (now : Timestamp)
    (scopeFilter : Option String) (p1 p2 : RPolicy) : List PolicyConflict :=
  match findOverlappingScope p1 p2 with
  | none => []
  | some overlappingScope =>
      let skipped : Bool :=
        match scopeFilter with
        | some s => s.length > 0 && !scopeMatches overlappingScope s
        | none => false
      if skipped then []
      else
        (if isContradiction p1 p2 then
          [createConflict conflictIdOf now .CONTRADICTION [p1, p2] overlappingScope
            ("Policies \"" ++ p1.name ++ "\" and \"" ++ p2.name ++
              "\" have contradictory enforcement actions")]
         else []) ++
        (if isOverlapConflict p1 p2 then
          [createConflict conflictIdOf now .OVERLAP [p1, p2] overlappingScope
            ("Policies \"" ++ p1.name ++ "\" and \"" ++ p2.name ++
              "\" overlap with different enforcement levels")]
         else []) ++
        (if hasAmbiguousPriority p1 p2 then
          [createConflict conflictIdOf now .AMBIGUOUS_PRIORITY [p1, p2] overlappingScope
            ("Policies \"" ++ p1.name ++ "\" and \"" ++ p2.name ++
              "\" have the same priority in overlapping scope")]
         else []) ++
        []

/-- All ordered pairs i < j of the registered policies, in registration
order. -/
def detectPairs : List RPolicy → List (RPolicy × RPolicy)
  | [] => []
  | p :: rest => rest.map (fun q => (p, q)) ++ detectPairs rest

/-- detectConflicts from conflict-resolver.ts over the registered policies in
registration order (the side table of stored conflicts only memoizes the
returned list). -/
def detectConflicts (conflictIdOf : ConflictData → ContentAddress) (now : Timestamp)
    (scopeFilter : Option String) (policies : List RPolicy) : List PolicyConflict :=
  (detectPairs policies).flatMap
    (fun pair => conflictsForPair conflictIdOf now scopeFilter pair.1 pair.2)

/-- registerRule from conflict-resolver.ts: push, then re-sort the rule list
by descending priority (JS stable sort, matched by insertion sort). -/
def registerRule (rules : List ResolutionRule) (rule : ResolutionRule) : List ResolutionRule :=
  List.insertionSort (fun a b => b.priority ≤ a.priority) (rules ++ [rule])

/-- The four default resolution rules, registered by the constructor in
order: OVERLAP to MOST_SPECIFIC (100), CONTRADICTION to MOST_RESTRICTIVE
(100), AMBIGUOUS_PRIORITY to NEWEST (50), CIRCULAR to ESCALATE (100). -/
def defaultRules : List ResolutionRule :=
  registerRule
    (registerRule
      (registerRule
        (registerRule []
          { id := "default-overlap", conflictTypes := [.OVERLAP],
            strategy := .MOST_SPECIFIC, priority := 100 })
        { id := "default-contradiction", conflictTypes := [.CONTRADICTION],
          strategy := .MOST_RESTRICTIVE, priority := 100 })
      { id := "default-ambiguous", conflictTypes := [.AMBIGUOUS_PRIORITY],
        strategy := .NEWEST, priority := 50 })
    { id := "default-circular", conflictTypes := [.CIRCULAR],
      strategy := .ESCALATE, priority := 100 }

/-- The fixed restrictiveness ranking BLOCK, ESCALATE, ANNOTATE, SHADOW as
array indices. -/
def enforcementIndex : EnforcementMode → Nat
  | .BLOCK => 0
  | .ESCALATE => 1
  | .ANNOTATE => 2
  | .SHADOW => 3

/-- resolveBySpecificity: the longest scope pattern wins. -/
def resolveBySpecificity (conflict : PolicyConflict) : ResolutionResult :=
  let sorted := List.insertionSort
    (fun a b : RPolicy => (b.scope.pattern.getD "*").length ≤ (a.scope.pattern.getD "*").length)
    conflict.policies
  match sorted.head? with
  | none =>
      { resolved := false
        strategy := .MOST_SPECIFIC
        explanation := "Could not determine most specific policy"
        needsEscalation := true }
  | some winner =>
      { resolved := true
        strategy := .MOST_SPECIFIC
        winningPolicy := some winner
        explanation := "Policy \"" ++ winner.name ++ "\" wins as the most specific"
        needsEscalation := false }

/-- resolveByRestrictiveness: the smallest index in the BLOCK, ESCALATE,
ANNOTATE, SHADOW ranking wins. -/
def resolveByRestrictiveness (conflict : PolicyConflict) : ResolutionResult :=
  let sorted := List.insertionSort
    (fun a b : RPolicy => enforcementIndex a.enforcement ≤ enforcementIndex b.enforcement)
    conflict.policies
  match sorted.head? with
  | none =>
      { resolved := false
        strategy := .MOST_RESTRICTIVE
        explanation := "Could not determine most restrictive policy"
        needsEscalation := true }
  | some winner =>
      { resolved := true
        strategy := .MOST_RESTRICTIVE
        winningPolicy := some winner
        explanation := "Policy \"" ++ winner.name ++ "\" wins as the most restrictive"
        needsEscalation := false }

/-- resolveByPermissiveness: the reverse ranking. -/
def resolveByPermissiveness (conflict : PolicyConflict) : ResolutionResult :=
  let sorted := List.insertionSort
    (fun a b : RPolicy =>
      3 - enforcementIndex a.enforcement ≤ 3 - enforcementIndex b.enforcement)
    conflict.policies
  match sorted.head? with
  | none =>
      { resolved := false
        strategy := .MOST_PERMISSIVE
        explanation := "Could not determine most permissive policy"
        needsEscalation := true }
  | some winner =>
      { resolved := true
        strategy := .MOST_PERMISSIVE
        winningPolicy := some winner
        explanation := "Policy \"" ++ winner.name ++ "\" wins as the most permissive"
        needsEscalation := false }

/-- resolveByPriority: the highest metadata priority (defaulting to 0)
wins. -/
def resolveByPriority (conflict : PolicyConflict) : ResolutionResult :=
  let sorted := List.insertionSort
    (fun a b : RPolicy => b.metaPriority.getD 0 ≤ a.metaPriority.getD 0)
    conflict.policies
  match sorted.head? with
  | none =>
      { resolved := false
        strategy := .PRIORITY
        explanation := "Could not determine highest priority policy"
        needsEscalation := true }
  | some winner =>
      { resolved := true
        strategy := .PRIORITY
        winningPolicy := some winner
        explanation := "Policy \"" ++ winner.name ++ "\" wins by priority"
        needsEscalation := false }

/-- resolveByNewest: the latest metadata createdAt string (defaulting to the
empty string, compared in string order) wins. -/
def resolveByNewest (conflict : PolicyConflict) : ResolutionResult :=
  let sorted := List.insertionSort
    (fun a b : RPolicy => strLe (b.metaCreatedAt.getD "") (a.metaCreatedAt.getD "") = true)
    conflict.policies
  match sorted.head? with
  | none =>
      { resolved := false
        strategy := .NEWEST
        explanation := "Could not determine newest policy"
        needsEscalation := true }
  | some winner =>
      { resolved := true
        strategy := .NEWEST
        winningPolicy := some winner
        explanation := "Policy \"" ++ winner.name ++ "\" wins as the newest"
        needsEscalation := false }

/-- applyRule from conflict-resolver.ts: a CUSTOM rule with a resolver runs
it; otherwise the strategy dispatches to the corresponding resolver, with
ESCALATE (and any strategy without a handler) deferring to a human. -/
def applyRule (rule : ResolutionRule) (conflict : PolicyConflict) : ResolutionResult :=
  match rule.strategy, rule.resolver with
  | .CUSTOM, some resolver => resolver conflict
  | strategy, _ =>
      match strategy with
      | .MOST_SPECIFIC => resolveBySpecificity conflict
      | .MOST_RESTRICTIVE => resolveByRestrictiveness conflict
      | .MOST_PERMISSIVE => resolveByPermissiveness conflict
      | .PRIORITY => resolveByPriority conflict
      | .NEWEST => resolveByNewest conflict
      | _ =>
          { resolved := false
            strategy := .ESCALATE
            explanation := "Conflict requires human review"
            needsEscalation := true }

/-- resolve from conflict-resolver.ts: the first rule (in the
priority-sorted list) handling the conflict type is applied; with no
applicable rule the conflict escalates. -/
def resolve (rules : List ResolutionRule) (conflict : PolicyConflict) : ResolutionResult :=
  match rules.find? (fun r => r.conflictTypes.contains conflict.type) with
  | none =>
      { resolved := false
        strategy := .ESCALATE
        explanation := "No resolution rule found for this conflict type"
        recommendation := some "Define a resolution rule or manually resolve"
        needsEscalation := true }
  | some rule => applyRule rule conflict

end ConflictResolver

/-! ## Approval queue (src/safety/approval.ts) -/

/-- Approval request status. -/
inductive ApprovalStatus where
  | PENDING
  | IN_REVIEW
  | APPROVED
  | REJECTED
  | TIMED_OUT
  | WITHDRAWN
deriving DecidableEq

/-- Context provided to approvers (the optional excerpt/related/metadata
fields are never read by the queue and are omitted). -/
structure ApprovalContext where
  summary : String
  riskLevel : String
  impact : String
deriving DecidableEq

/-- Outcome of an approval decision. -/
structure ApprovalOutcome where
  decision : String
  decidedBy : ContentAddress
  decidedAt : Timestamp
  justification : Option String := none
  conditions : Option (List String) := none
  automated : Bool
deriving DecidableEq

/-- Approval request definition. -/
structure ApprovalRequest where
  id : ContentAddress
  decisionId : ContentAddress
  status : ApprovalStatus
  priority : Nat
  requestedBy : ContentAddress
  reason : String
  triggeringPolicyId : Option ContentAddress := none
  approvers : List ContentAddress
  createdAt : Timestamp
  expiresAt : Timestamp
  context : ApprovalContext
  outcome : Option ApprovalOutcome := none
deriving DecidableEq

/-- Input for creating an approval request. -/
structure CreateApprovalRequestInput where
  decisionId : ContentAddress
  requestedBy : ContentAddress
  reason : String
  priority : Option Nat := none
  triggeringPolicyId : Option ContentAddress := none
  approvers : List ContentAddress
  timeoutMs : Option Int := none
  context : ApprovalContext
deriving DecidableEq

/-- The thrown errors of the approval queue, one constructor per throw site,
each carrying the data interpolated into the message. The three actor checks
are the authorization errors of the specification. -/
inductive AQError where
  | requestNotFound (requestId : ContentAddress)
  | notPending (requestId : ContentAddress) (status : ApprovalStatus)
  | notAuthorizedToReview (actorId : ContentAddress)
  | cannotBeDecided (requestId : ContentAddress) (status : ApprovalStatus)
  | notAuthorizedToDecide (actorId : ContentAddress)
  | cannotBeWithdrawn (requestId : ContentAddress) (status : ApprovalStatus)
  | onlyRequesterCanWithdraw
deriving DecidableEq

/-- Whether an error is one of the authorization errors (an actor outside
approvers, or a non-requester withdrawing). -/
def AQError.isAuthorizationError : AQError → Bool
  | .notAuthorizedToReview _ => true
  | .notAuthorizedToDecide _ => true
  | .onlyRequesterCanWithdraw => true
  | _ => false

/-- The requests map of the approval queue (the byDecision/byApprover side
indexes are derived lookup caches never read by the four operations below
and are omitted). -/
abbrev RequestMap := List (ContentAddress × ApprovalRequest)

/-- Request map lookup (JS Map.get). -/
def reqGet (q : RequestMap) (k : ContentAddress) : Option ApprovalRequest :=
  (q.find? (fun p => p.1 = k)).map (fun p => p.2)

/-- Request map update (JS Map.set). -/
def reqSet (q : RequestMap) (k : ContentAddress) (v : ApprovalRequest) : RequestMap :=
  if q.any (fun p => p.1 = k) then
    q.map (fun p => if p.1 = k then (k, v) else p)
  else q ++ [(k, v)]

namespace ApprovalQueue

/-- The default 24-hour timeout in milliseconds. -/
def defaultTimeoutMs : Int := 24 * 60 * 60 * 1000

/-- The requestData object whose content address becomes the request id. -/
def encodeRequestData (input : CreateApprovalRequestInput) (createdAt : Timestamp) : JsValue :=
  .obj [("decisionId", .str input.decisionId),
        ("requestedBy", .str input.requestedBy),
        ("reason", .str input.reason),
        ("createdAt", .num createdAt)]

/-- createRequest from approval.ts: a new PENDING request expiring
timeoutMs (default 24h) after now, stored under the content address of its
request data. -/
def createRequest (hashHex : String → String → String) (q : RequestMap)
    (now : Timestamp) (input : CreateApprovalRequestInput) : RequestMap × ApprovalRequest :=
  let timeoutMs := input.timeoutMs.getD defaultTimeoutMs
  let id := computeContentAddress hashHex DEFAULT_CONFIG (encodeRequestData input now)
  let request : ApprovalRequest :=
    { id := id
      decisionId := input.decisionId
      status := .PENDING
      priority := input.priority.getD 2
      requestedBy := input.requestedBy
      reason := input.reason
      triggeringPolicyId := input.triggeringPolicyId
      approvers := input.approvers
      createdAt := now
      expiresAt := now + timeoutMs
      context := input.context }
  (reqSet q id request, request)

/-- startReview from approval.ts: the status check (must be PENDING) runs
before the approver-membership check. -/
def startReview (q : RequestMap) (requestId : ContentAddress)
    (reviewerId : ContentAddress) : Except AQError (RequestMap × ApprovalRequest) :=
  match reqGet q requestId with
  | none => .error (.requestNotFound requestId)
  | some request =>
      if request.status ≠ .PENDING then
        .error (.notPending requestId request.status)
      else if ¬ request.approvers.contains reviewerId then
        .error (.notAuthorizedToReview reviewerId)
      else
        let updated : ApprovalRequest := { request with status := .IN_REVIEW }
        .ok (reqSet q requestId updated, updated)

/-- recordDecision from approval.ts: the status check (PENDING or IN_REVIEW)
runs before the approver-membership check; the outcome records who decided
and is never automated. -/
def recordDecision (q : RequestMap) (now : Timestamp) (requestId : ContentAddress)
    (decision : String) (decidedBy : ContentAddress)
    (justification : Option String) (conditions : Option (List String)) :
    Except AQError (RequestMap × ApprovalRequest) :=
  match reqGet q requestId with
  | none => .error (.requestNotFound requestId)
  | some request =>
      if request.status ≠ .PENDING ∧ request.status ≠ .IN_REVIEW then
        .error (.cannotBeDecided requestId request.status)
      else if ¬ request.approvers.contains decidedBy then
        .error (.notAuthorizedToDecide decidedBy)
      else
        let outcome : ApprovalOutcome :=
          { decision := decision
            decidedBy := decidedBy
            decidedAt := now
            justification := justification
            conditions := conditions
            automated := false }
        let updated : ApprovalRequest :=
          { request with
              status := if decision = "approved" then .APPROVED else .REJECTED
              outcome := some outcome }
        .ok (reqSet q requestId updated, updated)

/-- withdraw from approval.ts: the status check (PENDING or IN_REVIEW) runs
before the requester check. -/
def withdraw (q : RequestMap) (requestId : ContentAddress)
    (withdrawnBy : ContentAddress) : Except AQError (RequestMap × ApprovalRequest) :=
  match reqGet q requestId with
  | none => .error (.requestNotFound requestId)
  | some request =>
      if request.status ≠ .PENDING ∧ request.status ≠ .IN_REVIEW then
        .error (.cannotBeWithdrawn requestId request.status)
      else if request.requestedBy ≠ withdrawnBy then
        .error (.onlyRequesterCanWithdraw)
      else
        let updated : ApprovalRequest := { request with status := .WITHDRAWN }
        .ok (reqSet q requestId updated, updated)

end ApprovalQueue

/-! ## Auxiliary predicates and concrete fixtures used by the theorems -/

/-- Whether an Except value is a success. -/
def exceptIsOk {ε α : Type} : Except ε α → Bool
  | .ok _ => true
  | .error _ => false

/-- Whether a state-machine error is the invalid-transition error (the one
that names the current state and the legal target set). -/
def DSError.isInvalidTransition : DSError → Bool
  | .invalidTransition _ _ _ => true
  | _ => false

/-- The identity-like core of a decision that no lifecycle transition may
touch: id, action, proposedBy, contextRefs, alternativeIds and proposedAt. -/
def sameCore (d1 d2 : Decision) : Prop :=
  d2.id = d1.id ∧ d2.action = d1.action ∧ d2.proposedBy = d1.proposedBy ∧
    d2.contextRefs = d1.contextRefs ∧ d2.alternativeIds = d1.alternativeIds ∧
    d2.proposedAt = d1.proposedAt

/-- The commit-safety invariant of a decision store: every stored decision in
a commit-eligible or committed state carries a verdict whose result is not
DENY. -/
def VerdictInvariant (m : DecisionMap) : Prop :=
  ∀ id d, mapGet m id = some d →
    (d.state = DecisionState.COMMITTED ∨ d.state = DecisionState.EVALUATED ∨
      d.state = DecisionState.PENDING_APPROVAL) →
    ∃ v, d.verdict = some v ∧ v.result ≠ VerdictResult.DENY

/-- A stand-in digest function for concrete runs; the lifecycle theorems hold
for every digest, and a constant digest keeps concrete stores small. -/
def cexHash : String → String → String := fun _ _ => "h"

/-- A minimal concrete proposal. -/
def cexInput : ProposeDecisionInput :=
  { action := { type := "t", parameters := [] }
    proposedBy := "sha256:actor"
    contextRefs := [] }

/-- A concrete verdict with the given result (decision id matching the
cexHash-addressed proposal). -/
def cexVerdict (result : VerdictResult) : DecisionVerdict :=
  { id := "sha256:v"
    decisionId := "sha256:h"
    result := result
    scope := "t"
    policyResults := []
    blockingPolicies := []
    escalatingPolicies := []
    annotations := []
    violations := []
    evaluatedAt := 1
    evaluationTimeMs := 0 }

/-- A placeholder decision for total projections out of Option. -/
def noDecision : Decision :=
  { id := ""
    state := .PROPOSED
    action := { type := "", parameters := [] }
    proposedBy := ""
    contextRefs := []
    alternativeIds := []
    proposedAt := 0 }

/-- Store holding one freshly proposed decision. -/
def wProposedMap : DecisionMap := (DecisionStateMachine.propose cexHash [] 0 cexInput).1

/-- The stored decision of the proposed store. -/
def wProposedD : Decision := (mapGet wProposedMap "sha256:h").getD noDecision

/-- Store after proposing and evaluating with an ESCALATE verdict: the
decision sits in PENDING_APPROVAL. -/
def cexEscalatedMap : DecisionMap :=
  runOps cexHash []
    [.propose cexInput 0, .evaluate "sha256:h" (cexVerdict .ESCALATE) 1]

/-- The calls of the happy path: propose, evaluate with ALLOW, commit. -/
def wCommitOps : List LifecycleOp :=
  [.propose cexInput 0, .evaluate "sha256:h" (cexVerdict .ALLOW) 1,
   .commit "sha256:h" 2]

/-- Store after proposing and evaluating with an ALLOW verdict. -/
def wEvaluatedMap : DecisionMap :=
  runOps cexHash []
    [.propose cexInput 0, .evaluate "sha256:h" (cexVerdict .ALLOW) 1]

/-- The stored decision of the evaluated store. -/
def wEvaluatedD : Decision := (mapGet wEvaluatedMap "sha256:h").getD noDecision

/-- Store after the full happy path. -/
def wCommittedMap : DecisionMap := runOps cexHash [] wCommitOps

/-- The stored decision of the committed store. -/
def wCommittedD : Decision := (mapGet wCommittedMap "sha256:h").getD noDecision

/-- A concrete committed decision stored directly. -/
def cexCommittedD : Decision :=
  { id := "sha256:d"
    state := .COMMITTED
    action := { type := "t", parameters := [] }
    proposedBy := "sha256:actor"
    contextRefs := []
    alternativeIds := []
    proposedAt := 0
    concludedAt := some 2 }

/-- A store holding only the committed decision. -/
def cexTerminalMap : DecisionMap := [("sha256:d", cexCommittedD)]

/-- P1 of the conflict scenario: BLOCK enforcement over financial:*. -/
def scenarioP1 : RPolicy :=
  { id := "sha256:p1"
    name := "P1"
    scope := { type := .DECISION_TYPE, pattern := some "financial:*" }
    enforcement := .BLOCK }

/-- P2 of the conflict scenario: ANNOTATE enforcement over
financial:transfer. -/
def scenarioP2 : RPolicy :=
  { id := "sha256:p2"
    name := "P2"
    scope := { type := .DECISION_TYPE, pattern := some "financial:transfer" }
    enforcement := .ANNOTATE }

/-- The conflicts detected over the scenario registrations (conflict ids are
hashed from the conflict data; a constant stand-in keeps the run concrete). -/
def scenarioConflicts : List PolicyConflict :=
  ConflictResolver.detectConflicts (fun _ => "sha256:c") 0 none [scenarioP1, scenarioP2]

/-- The concrete approval-request input of the authorization scenario:
one designated approver. -/
def cexRequestInput : CreateApprovalRequestInput :=
  { decisionId := "sha256:d"
    requestedBy := "sha256:req"
    reason := "escalated"
    approvers := ["sha256:a1"]
    context := { summary := "s", riskLevel := "HIGH", impact := "i" } }

/-- Queue after creating the scenario request. -/
def cexQueue1 : RequestMap := (ApprovalQueue.createRequest cexHash [] 0 cexRequestInput).1

/-- Queue after the designated approver started review (request now
IN_REVIEW). -/
def cexQueue2 : RequestMap :=
  match ApprovalQueue.startReview cexQueue1 "sha256:h" "sha256:a1" with
  | .ok (q, _) => q
  | .error _ => cexQueue1

/-- The stored request of the IN_REVIEW queue. -/
def cexRequest2 : Option ApprovalRequest := reqGet cexQueue2 "sha256:h"

/-- A concrete pending request for the witness instantiations. -/
def wRequest : ApprovalRequest :=
  { id := "sha256:r"
    decisionId := "sha256:d"
    status := .PENDING
    priority := 2
    requestedBy := "sha256:req"
    reason := "escalated"
    approvers := ["sha256:a1"]
    createdAt := 0
    expiresAt := 100
    context := { summary := "s", riskLevel := "HIGH", impact := "i" } }

/-- A queue holding only the pending request. -/
def wQueue : RequestMap := [("sha256:r", wRequest)]

/-- A registry whose expression evaluator always throws. -/
def throwingRegistry : RuleEvaluatorRegistry := fun format =>
  match format with
  | .expression => some (fun _ _ => .error "boom")
  | _ => none

/-- A concrete active BLOCK policy with an expression rule. -/
def wActivePolicy : PolicyDefinition :=
  { name := "limit"
    rule := { format := .expression, expression := "extra.amount < 1000" }
    enforcement := .BLOCK
    version := "1.0.0"
    status := .ACTIVE
    activation := { activatesAt := 0 } }

/-- A concrete draft policy (inactive by status). -/
def wDraftPolicy : PolicyDefinition :=
  { name := "draft"
    rule := { format := .expression, expression := "extra.amount < 1000" }
    enforcement := .BLOCK
    version := "1.0.0"
    status := .DRAFT
    activation := { activatesAt := 0 } }

/-- A concrete evaluation context at timestamp 50. -/
def wContext : PolicyEvaluationContext :=
  { decisionId := "sha256:d", decisionType := "t", timestamp := 50 }

/-- First object of the hashing witness: two fields, nested object, one
order. -/
def wJson1 : JsValue :=
  .obj [("b", .num 1), ("a", .obj [("y", .str "v"), ("x", .bool true)])]

/-- Second object of the hashing witness: the same fields with both levels
reordered. -/
def wJson2 : JsValue :=
  .obj [("a", .obj [("x", .bool true), ("y", .str "v")]), ("b", .num 1)]

/-- Whether a policy fails under evaluation with the given result
enforcement (the membership test of the blocking/escalating lists). -/
def failsWith (registry : RuleEvaluatorRegistry) (context : PolicyEvaluationContext)
    (mode : EnforcementMode) (policy : PolicyDefinition) : Bool :=
  decide (¬ (PolicyEvaluator.evaluatePolicy registry policy context).passed ∧
    (PolicyEvaluator.evaluatePolicy registry policy context).enforcement = mode)

/-! ## Theorems -/

/-- Characterization of inactivity: not ACTIVE, before the activation time,
or at/after a set expiry (the complement of the half-open activation
window). -/
theorem isPolicyActive_false_iff (policy : PolicyDefinition) (t : Timestamp) :
    isPolicyActive policy t = false ↔
      (policy.status ≠ PolicyStatus.ACTIVE ∨ t < policy.activation.activatesAt ∨
        ∃ e, policy.activation.expiresAt = some e ∧ e ≤ t) := by
  unfold isPolicyActive
  rcases hE : policy.activation.expiresAt with _ | e <;>
    split_ifs with h1 h2 <;> simp_all

/-- C4: for an active policy, a rule evaluation that throws is caught and
converted to a failed result with enforcement BLOCK regardless of the
policy's configured enforcement, with the message recorded in the error
field; the exception is not propagated and the result is never passing. -/
theorem C4_evaluator_exception_fail_safe (registry : RuleEvaluatorRegistry)
    (policy : PolicyDefinition) (context : PolicyEvaluationContext) (msg : String)
    (hActive : isPolicyActive policy context.timestamp = true)
    (hThrow : registryEvaluate registry policy.rule.format policy.rule.expression context
      = .error msg) :
    PolicyEvaluator.evaluatePolicy registry policy context =
      { passed := false
        enforcement := EnforcementMode.BLOCK
        explanation := "Error evaluating policy: " ++ msg
        annotations := ["POLICY_ERROR:" ++ policy.name]
        error := some msg } := by
  unfold PolicyEvaluator.evaluatePolicy
  rw [hThrow]
  simp [hActive]

/-- Witness for C4 at a concrete throwing registry and active policy. -/
theorem C4_witness :
    isPolicyActive wActivePolicy wContext.timestamp = true ∧
    registryEvaluate throwingRegistry wActivePolicy.rule.format
      wActivePolicy.rule.expression wContext = .error "boom" ∧
    PolicyEvaluator.evaluatePolicy throwingRegistry wActivePolicy wContext =
      { passed := false
        enforcement := EnforcementMode.BLOCK
        explanation := "Error evaluating policy: " ++ "boom"
        annotations := ["POLICY_ERROR:" ++ wActivePolicy.name]
        error := some "boom" } :=
  ⟨by decide, rfl,
    C4_evaluator_exception_fail_safe throwingRegistry wActivePolicy wContext "boom"
      (by decide) rfl⟩

/-- C5: an inactive policy (status not ACTIVE, or timestamp outside the
half-open window from activatesAt to expiresAt) vacuously passes with no
annotations, for every registry — so the rule expression is never
dispatched and a not-yet-active or expired policy never blocks. -/
theorem C5_inactive_policy_vacuous_pass (registry : RuleEvaluatorRegistry)
    (policy : PolicyDefinition) (context : PolicyEvaluationContext)
    (hInactive : isPolicyActive policy context.timestamp = false) :
    PolicyEvaluator.evaluatePolicy registry policy context =
      { passed := true
        enforcement := policy.enforcement
        explanation := "Policy not active at evaluation time"
        annotations := []
        error := none } ∧
    (isPolicyActive policy context.timestamp = false ↔
      (policy.status ≠ PolicyStatus.ACTIVE ∨
        context.timestamp < policy.activation.activatesAt ∨
        ∃ e, policy.activation.expiresAt = some e ∧ e ≤ context.timestamp)) := by
  constructor
  · unfold PolicyEvaluator.evaluatePolicy
    simp [hInactive]
  · exact isPolicyActive_false_iff policy context.timestamp

/-- The entries of the evaluateAll loop are exactly one per input policy, in
input order. -/
theorem evalLoop_policyResults (registry : RuleEvaluatorRegistry)
    (policyIdOf : PolicyDefinition → ContentAddress) (context : PolicyEvaluationContext)
    (policies : List PolicyDefinition) :
    (PolicyEvaluator.evalLoop registry policyIdOf context policies).policyResults =
      policies.map (PolicyEvaluator.mkEntry registry policyIdOf context) := by
  induction policies with
  | nil => rfl
  | cons p rest ih => simp [PolicyEvaluator.evalLoop, ih]

/-- The blocking list of the loop is the ids of the policies that failed
with result enforcement BLOCK, in input order. -/
theorem evalLoop_blockingPolicies (registry : RuleEvaluatorRegistry)
    (policyIdOf : PolicyDefinition → ContentAddress) (context : PolicyEvaluationContext)
    (policies : List PolicyDefinition) :
    (PolicyEvaluator.evalLoop registry policyIdOf context policies).blockingPolicies =
      (policies.filter (failsWith registry context EnforcementMode.BLOCK)).map policyIdOf := by
  induction policies with
  | nil => rfl
  | cons p rest ih =>
      by_cases h : ((PolicyEvaluator.evaluatePolicy registry p context).passed = false ∧
          (PolicyEvaluator.evaluatePolicy registry p context).enforcement =
            EnforcementMode.BLOCK)
      · simp [PolicyEvaluator.evalLoop, List.filter_cons, failsWith, Bool.not_eq_true, h, ih]
      · simp [PolicyEvaluator.evalLoop, List.filter_cons, failsWith, Bool.not_eq_true, h, ih]

/-- The escalating list of the loop is the ids of the policies that failed
with result enforcement ESCALATE, in input order. -/
theorem evalLoop_escalatingPolicies (registry : RuleEvaluatorRegistry)
    (policyIdOf : PolicyDefinition → ContentAddress) (context : PolicyEvaluationContext)
    (policies : List PolicyDefinition) :
    (PolicyEvaluator.evalLoop registry policyIdOf context policies).escalatingPolicies =
      (policies.filter (failsWith registry context EnforcementMode.ESCALATE)).map policyIdOf := by
  induction policies with
  | nil => rfl
  | cons p rest ih =>
      by_cases h : ((PolicyEvaluator.evaluatePolicy registry p context).passed = false ∧
          (PolicyEvaluator.evaluatePolicy registry p context).enforcement =
            EnforcementMode.ESCALATE)
      · simp [PolicyEvaluator.evalLoop, List.filter_cons, failsWith, Bool.not_eq_true, h, ih]
      · simp [PolicyEvaluator.evalLoop, List.filter_cons, failsWith, Bool.not_eq_true, h, ih]

/-- The annotation list of the loop is the concatenation of the per-policy
annotations, in input order. -/
theorem evalLoop_annotations (registry : RuleEvaluatorRegistry)
    (policyIdOf : PolicyDefinition → ContentAddress) (context : PolicyEvaluationContext)
    (policies : List PolicyDefinition) :
    (PolicyEvaluator.evalLoop registry policyIdOf context policies).allAnnotations =
      (policies.map
        (fun p => (PolicyEvaluator.evaluatePolicy registry p context).annotations)).flatten := by
  induction policies with
  | nil => rfl
  | cons p rest ih => simp [PolicyEvaluator.evalLoop, ih]

/-- A list filtered by a predicate is nonempty exactly when some element
satisfies it. -/
theorem filter_length_pos_iff_any {α : Type} (p : α → Bool) (l : List α) :
    ((l.filter p).length > 0) ↔ l.any p = true := by
  induction l with
  | nil => simp
  | cons a t ih =>
      by_cases h : p a
      · simp [h]
      · simp [h, ih]

/-- C3: evaluateAll evaluates every supplied policy with no short-circuit
(one policyResults entry per input policy, in input order), the blocking and
escalating lists are exactly the failed policies with result enforcement
BLOCK resp. ESCALATE, and the overall result has the fixed precedence DENY,
then ESCALATE, then ANNOTATE when any annotations were produced, else
ALLOW. -/
theorem C3_evaluateAll_aggregation (registry : RuleEvaluatorRegistry)
    (policyIdOf : PolicyDefinition → ContentAddress)
    (verdictIdOf : VerdictData → ContentAddress)
    (policies : List PolicyDefinition) (context : PolicyEvaluationContext)
    (evaluatedAt : Timestamp) (evaluationTimeMs : Int) :
    (PolicyEvaluator.evaluateAll registry policyIdOf verdictIdOf policies context
        evaluatedAt evaluationTimeMs).policyResults =
      policies.map (PolicyEvaluator.mkEntry registry policyIdOf context) ∧
    (PolicyEvaluator.evaluateAll registry policyIdOf verdictIdOf policies context
        evaluatedAt evaluationTimeMs).blockingPolicies =
      (policies.filter (failsWith registry context EnforcementMode.BLOCK)).map policyIdOf ∧
    (PolicyEvaluator.evaluateAll registry policyIdOf verdictIdOf policies context
        evaluatedAt evaluationTimeMs).annotations =
      (policies.map
        (fun p => (PolicyEvaluator.evaluatePolicy registry p context).annotations)).flatten ∧
    (PolicyEvaluator.evaluateAll registry policyIdOf verdictIdOf policies context
        evaluatedAt evaluationTimeMs).escalatingPolicies =
      (policies.filter (failsWith registry context EnforcementMode.ESCALATE)).map policyIdOf ∧
    (PolicyEvaluator.evaluateAll registry policyIdOf verdictIdOf policies context
        evaluatedAt evaluationTimeMs).result =
      (if policies.any (failsWith registry context EnforcementMode.BLOCK) then .DENY
       else if policies.any (failsWith registry context EnforcementMode.ESCALATE) then .ESCALATE
       else if (PolicyEvaluator.evaluateAll registry policyIdOf verdictIdOf policies context
          evaluatedAt evaluationTimeMs).annotations.isEmpty then .ALLOW
       else .ANNOTATE) := by
  have hB := evalLoop_blockingPolicies registry policyIdOf context policies
  have hE := evalLoop_escalatingPolicies registry policyIdOf context policies
  have hA := evalLoop_annotations registry policyIdOf context policies
  have hR := evalLoop_policyResults registry policyIdOf context policies
  refine ⟨?_, ?_, ?_, ?_, ?_⟩
  · simpa [PolicyEvaluator.evaluateAll] using hR
  · simpa [PolicyEvaluator.evaluateAll] using hB
  · simpa [PolicyEvaluator.evaluateAll] using hA
  · simpa [PolicyEvaluator.evaluateAll] using hE
  · simp only [PolicyEvaluator.evaluateAll]
    by_cases hb : policies.any (failsWith registry context EnforcementMode.BLOCK)
    · have : ((PolicyEvaluator.evalLoop registry policyIdOf context
          policies).blockingPolicies).length > 0 := by
        rw [hB, List.length_map]
        exact (filter_length_pos_iff_any _ _).mpr hb
      simp [this, hb]
    · have hb0 : ¬ ((PolicyEvaluator.evalLoop registry policyIdOf context
          policies).blockingPolicies).length > 0 := by
        rw [hB, List.length_map]
        intro hc
        exact hb ((filter_length_pos_iff_any _ _).mp hc)
      by_cases he : policies.any (failsWith registry context EnforcementMode.ESCALATE)
      · have : ((PolicyEvaluator.evalLoop registry policyIdOf context
            policies).escalatingPolicies).length > 0 := by
          rw [hE, List.length_map]
          exact (filter_length_pos_iff_any _ _).mpr he
        simp [this, hb0, hb, he]
      · have he0 : ¬ ((PolicyEvaluator.evalLoop registry policyIdOf context
            policies).escalatingPolicies).length > 0 := by
          rw [hE, List.length_map]
          intro hc
          exact he ((filter_length_pos_iff_any _ _).mp hc)
        by_cases ha : ((PolicyEvaluator.evalLoop registry policyIdOf context
            policies).allAnnotations).length > 0
        · have hne : ¬ ((PolicyEvaluator.evalLoop registry policyIdOf context
              policies).allAnnotations).isEmpty := by
            rw [List.isEmpty_iff]
            intro hnil
            rw [hnil] at ha
            simp at ha
          simp [hb0, he0, ha, hb, he, hne]
        · have hemp : ((PolicyEvaluator.evalLoop registry policyIdOf context
              policies).allAnnotations).isEmpty := by
            rw [List.isEmpty_iff]
            rcases hx : (PolicyEvaluator.evalLoop registry policyIdOf context
              policies).allAnnotations with _ | ⟨x, xs⟩
            · rfl
            · rw [hx] at ha
              simp at ha
          simp [hb0, he0, ha, hb, he, hemp]

/-- Witness for C5 at a concrete draft (hence inactive) policy. -/
theorem C5_witness :
    isPolicyActive wDraftPolicy wContext.timestamp = false ∧
    PolicyEvaluator.evaluatePolicy throwingRegistry wDraftPolicy wContext =
      { passed := true
        enforcement := wDraftPolicy.enforcement
        explanation := "Policy not active at evaluation time"
        annotations := []
        error := none } :=
  ⟨by decide,
    (C5_inactive_policy_vacuous_pass throwingRegistry wDraftPolicy wContext (by decide)).1⟩

/-- Replacing the entry at a stored key makes find? return the
replacement. -/
theorem find?_replace_self (k : ContentAddress) (v : Decision) :
    ∀ (m : DecisionMap), m.any (fun p => p.1 = k) = true →
      (m.map (fun p => if p.1 = k then (k, v) else p)).find? (fun p => p.1 = k)
        = some (k, v)
  | [], h => by simp at h
  | a :: t, h => by
      by_cases hk : a.1 = k
      · simp [List.find?, hk]
      · have ht : t.any (fun p => p.1 = k) = true := by
          rcases List.any_eq_true.mp h with ⟨x, hx, hpx⟩
          rcases List.mem_cons.mp hx with h1 | h2
          · rw [← h1] at hk
            exact absurd (of_decide_eq_true hpx) hk
          · exact List.any_eq_true.mpr ⟨x, h2, hpx⟩
        simp [List.find?, hk, find?_replace_self k v t ht]

/-- Replacing the entry at one key leaves find? at any other key
unchanged. -/
theorem find?_replace_ne (k k' : ContentAddress) (v : Decision) (hne : k' ≠ k) :
    ∀ (m : DecisionMap),
      (m.map (fun p => if p.1 = k then (k, v) else p)).find? (fun p => p.1 = k')
        = m.find? (fun p => p.1 = k')
  | [] => rfl
  | a :: t => by
      by_cases hk : a.1 = k
      · have : ¬ (k = k') := fun hc => hne hc.symm
        simp [List.find?, hk, this, hne, find?_replace_ne k k' v hne t]
      · by_cases hk' : a.1 = k'
        · simp [List.find?, hk, hk', hne]
        · simp [List.find?, hk, hk', hne, find?_replace_ne k k' v hne t]

/-- Appending an entry is invisible to find? at other keys when the original
list misses them. -/
theorem find?_append_ne (k k' : ContentAddress) (v : Decision) (hne : k' ≠ k) :
    ∀ (m : DecisionMap),
      (m ++ [(k, v)]).find? (fun p => p.1 = k') = m.find? (fun p => p.1 = k')
  | [] => by
      have : ¬ (k = k') := fun hc => hne hc.symm
      simp [List.find?, this]
  | a :: t => by
      by_cases hk' : a.1 = k'
      · simp [List.find?, hk']
      · simp [List.find?, hk', find?_append_ne k k' v hne t]

/-- Appending the new entry makes find? return it when the key was
missing. -/
theorem find?_append_self (k : ContentAddress) (v : Decision) :
    ∀ (m : DecisionMap), m.find? (fun p => p.1 = k) = none →
      (m ++ [(k, v)]).find? (fun p => p.1 = k) = some (k, v)
  | [], _ => by simp [List.find?]
  | a :: t, hnone => by
      have ha : ¬ (a.1 = k) := by
        intro hc
        rw [List.find?_cons_of_pos] at hnone
        · exact Option.noConfusion hnone
        · simpa using hc
      have ht : t.find? (fun p => p.1 = k) = none := by
        rwa [List.find?_cons_of_neg] at hnone
        simpa using ha
      simp [List.find?, ha, find?_append_self k v t ht]

/-- Map.set followed by Map.get at the same key returns the stored value. -/
theorem mapGet_mapSet_self (m : DecisionMap) (k : ContentAddress) (v : Decision) :
    mapGet (mapSet m k v) k = some v := by
  unfold mapGet mapSet
  by_cases h : m.any (fun p => p.1 = k)
  · simp [h, find?_replace_self k v m h]
  · have hnone : m.find? (fun p => p.1 = k) = none := by
      rw [List.find?_eq_none]
      intro x hx hpx
      rw [List.any_eq_true] at h
      exact h ⟨x, hx, hpx⟩
    simp [h, find?_append_self k v m hnone]

/-- Map.set leaves Map.get at every other key unchanged. -/
theorem mapGet_mapSet_ne (m : DecisionMap) (k k' : ContentAddress) (v : Decision)
    (hne : k' ≠ k) : mapGet (mapSet m k v) k' = mapGet m k' := by
  unfold mapGet mapSet
  by_cases h : m.any (fun p => p.1 = k)
  · simp [h, find?_replace_ne k k' v hne m]
  · simp [h, find?_append_ne k k' v hne m]
/-- A state allows the transition into COMMITTED exactly when it is
EVALUATED or PENDING_APPROVAL. -/
theorem commitEligible_iff (s : DecisionState) :
    DecisionState.COMMITTED ∈ VALID_TRANSITIONS s ↔
      (s = DecisionState.EVALUATED ∨ s = DecisionState.PENDING_APPROVAL) := by
  cases s <;> simp [VALID_TRANSITIONS]

/-- Inversion of a successful evaluate: the stored decision allowed the
transition and is replaced by its evaluated snapshot. -/
theorem evaluate_ok_inv {m : DecisionMap} {now : Timestamp} {id : ContentAddress}
    {v : DecisionVerdict} {m2 : DecisionMap} {d2 : Decision}
    (h : DecisionStateMachine.evaluate m now id v = .ok (m2, d2)) :
    ∃ d, mapGet m id = some d ∧
      DecisionState.EVALUATED ∈ VALID_TRANSITIONS d.state ∧
      d2 = DecisionStateMachine.evaluatedDecision d now v ∧
      m2 = mapSet m id d2 := by
  unfold DecisionStateMachine.evaluate DecisionStateMachine.validateTransition at h
  rcases hg : mapGet m id with _ | d <;> rw [hg] at h
  · exact absurd h (by simp)
  · by_cases hc : DecisionState.EVALUATED ∈ VALID_TRANSITIONS d.state
    · simp [hc] at h
      exact ⟨d, rfl, hc, h.2.symm, by rw [← h.2]; exact h.1.symm⟩
    · simp [hc] at h

/-- Inversion of a successful commit: the stored decision allowed the
transition into COMMITTED and is replaced by its committed snapshot. -/
theorem commit_ok_inv {m : DecisionMap} {now : Timestamp} {id : ContentAddress}
    {m2 : DecisionMap} {d2 : Decision}
    (h : DecisionStateMachine.commit m now id = .ok (m2, d2)) :
    ∃ d, mapGet m id = some d ∧
      DecisionState.COMMITTED ∈ VALID_TRANSITIONS d.state ∧
      d2 = { d with state := DecisionState.COMMITTED, concludedAt := some now } ∧
      m2 = mapSet m id d2 := by
  unfold DecisionStateMachine.commit DecisionStateMachine.validateTransition at h
  rcases hg : mapGet m id with _ | d <;> rw [hg] at h
  · exact absurd h (by simp)
  · by_cases hc : DecisionState.COMMITTED ∈ VALID_TRANSITIONS d.state
    · simp [hc] at h
      exact ⟨d, rfl, hc, h.2.symm, by rw [← h.2]; exact h.1.symm⟩
    · simp [hc] at h

/-- Inversion of a successful reject. -/
theorem reject_ok_inv {m : DecisionMap} {now : Timestamp} {id : ContentAddress}
    {reason : Option String} {m2 : DecisionMap} {d2 : Decision}
    (h : DecisionStateMachine.reject m now id reason = .ok (m2, d2)) :
    ∃ d, mapGet m id = some d ∧
      DecisionState.REJECTED ∈ VALID_TRANSITIONS d.state ∧
      d2 = { d with
              state := DecisionState.REJECTED
              concludedAt := some now
              rationale := reason.orElse (fun _ => d.rationale) } ∧
      m2 = mapSet m id d2 := by
  unfold DecisionStateMachine.reject DecisionStateMachine.validateTransition at h
  rcases hg : mapGet m id with _ | d <;> rw [hg] at h
  · exact absurd h (by simp)
  · by_cases hc : DecisionState.REJECTED ∈ VALID_TRANSITIONS d.state
    · simp [hc] at h
      exact ⟨d, rfl, hc, h.2.symm, by rw [← h.2]; exact h.1.symm⟩
    · simp [hc] at h

/-- Inversion of a successful cancel. -/
theorem cancel_ok_inv {m : DecisionMap} {now : Timestamp} {id : ContentAddress}
    {reason : Option String} {m2 : DecisionMap} {d2 : Decision}
    (h : DecisionStateMachine.cancel m now id reason = .ok (m2, d2)) :
    ∃ d, mapGet m id = some d ∧
      DecisionState.CANCELLED ∈ VALID_TRANSITIONS d.state ∧
      d2 = { d with
              state := DecisionState.CANCELLED
              concludedAt := some now
              rationale := reason.orElse (fun _ => d.rationale) } ∧
      m2 = mapSet m id d2 := by
  unfold DecisionStateMachine.cancel DecisionStateMachine.validateTransition at h
  rcases hg : mapGet m id with _ | d <;> rw [hg] at h
  · exact absurd h (by simp)
  · by_cases hc : DecisionState.CANCELLED ∈ VALID_TRANSITIONS d.state
    · simp [hc] at h
      exact ⟨d, rfl, hc, h.2.symm, by rw [← h.2]; exact h.1.symm⟩
    · simp [hc] at h

/-- Inversion of a successful approve: the stored decision was
PENDING_APPROVAL and is returned to EVALUATED with the approval recorded. -/
theorem approve_ok_inv {m : DecisionMap} {now : Timestamp} {id : ContentAddress}
    {approvedBy : ContentAddress} {justification : Option String}
    {m2 : DecisionMap} {d2 : Decision}
    (h : DecisionStateMachine.approve m now id approvedBy justification = .ok (m2, d2)) :
    ∃ d, mapGet m id = some d ∧ d.state = DecisionState.PENDING_APPROVAL ∧
      d2 = { d with
              state := DecisionState.EVALUATED
              approval := some { decidedBy := approvedBy
                                 decision := "approved"
                                 justification := justification
                                 decidedAt := now } } ∧
      m2 = mapSet m id d2 := by
  unfold DecisionStateMachine.approve at h
  rcases hg : mapGet m id with _ | d <;> rw [hg] at h
  · exact absurd h (by simp)
  · by_cases hv : d.state = DecisionState.PENDING_APPROVAL
    · simp [hv] at h
      exact ⟨d, rfl, hv, h.2.symm, by rw [← h.2]; exact h.1.symm⟩
    · simp [hv] at h

/-- Reading back after Map.set: either the written key with the written
value, or another key with its old value. -/
theorem mapGet_mapSet_cases {m : DecisionMap} {k id : ContentAddress}
    {v d : Decision} (h : mapGet (mapSet m k v) id = some d) :
    (id = k ∧ d = v) ∨ (id ≠ k ∧ mapGet m id = some d) := by
  by_cases hid : id = k
  · subst hid
    rw [mapGet_mapSet_self] at h
    exact Or.inl ⟨rfl, (Option.some.inj h).symm⟩
  · rw [mapGet_mapSet_ne m k id v hid] at h
    exact Or.inr ⟨hid, h⟩

/-- sameCore is reflexive. -/
theorem sameCore_refl (d : Decision) : sameCore d d :=
  ⟨rfl, rfl, rfl, rfl, rfl, rfl⟩

/-- sameCore chains. -/
theorem sameCore_trans {d1 d2 d3 : Decision} (h1 : sameCore d1 d2)
    (h2 : sameCore d2 d3) : sameCore d1 d3 :=
  ⟨h2.1.trans h1.1,
   h2.2.1.trans h1.2.1,
   h2.2.2.1.trans h1.2.2.1,
   h2.2.2.2.1.trans h1.2.2.2.1,
   h2.2.2.2.2.1.trans h1.2.2.2.2.1,
   h2.2.2.2.2.2.trans h1.2.2.2.2.2⟩

/-- One state-machine call preserves the commit-safety invariant. -/
theorem verdictInvariant_applyOp (hashHex : String → String → String)
    (m : DecisionMap) (op : LifecycleOp) (hInv : VerdictInvariant m) :
    VerdictInvariant (applyOp hashHex m op) := by
  cases op with
  | propose input now =>
      intro id d hget hstate
      simp only [applyOp, DecisionStateMachine.propose] at hget
      rcases mapGet_mapSet_cases hget with ⟨_, hd⟩ | ⟨_, hold⟩
      · subst hd
        simp at hstate
      · exact hInv id d hold hstate
  | evaluate eid v now =>
      intro id d hget hstate
      simp only [applyOp] at hget
      rcases hev : DecisionStateMachine.evaluate m now eid v with e | p
      · rw [hev] at hget
        exact hInv id d hget hstate
      · rcases p with ⟨m2, d2⟩
        rw [hev] at hget
        obtain ⟨dOld, hgetOld, hmem, hd2, hm2⟩ := evaluate_ok_inv hev
        rw [hm2] at hget
        rcases mapGet_mapSet_cases hget with ⟨_, hd⟩ | ⟨_, hold⟩
        · subst hd
          subst hd2
          rcases hres : v.result with _ | _ | _ | _ <;>
            simp [DecisionStateMachine.evaluatedDecision, DecisionStateMachine.nextStateFor,
              hres] at hstate ⊢
        · exact hInv id d hold hstate
  | commit cid now =>
      intro id d hget hstate
      simp only [applyOp] at hget
      rcases hev : DecisionStateMachine.commit m now cid with e | p
      · rw [hev] at hget
        exact hInv id d hget hstate
      · rcases p with ⟨m2, d2⟩
        rw [hev] at hget
        obtain ⟨dOld, hgetOld, hmem, hd2, hm2⟩ := commit_ok_inv hev
        rw [hm2] at hget
        rcases mapGet_mapSet_cases hget with ⟨_, hd⟩ | ⟨_, hold⟩
        · subst hd
          subst hd2
          have hel := (commitEligible_iff dOld.state).mp hmem
          obtain ⟨w, hw, hwd⟩ := hInv cid dOld hgetOld (Or.inr (by simpa using hel))
          exact ⟨w, by simpa using hw, hwd⟩
        · exact hInv id d hold hstate
  | reject rid reason now =>
      intro id d hget hstate
      simp only [applyOp] at hget
      rcases hev : DecisionStateMachine.reject m now rid reason with e | p
      · rw [hev] at hget
        exact hInv id d hget hstate
      · rcases p with ⟨m2, d2⟩
        rw [hev] at hget
        obtain ⟨dOld, hgetOld, hmem, hd2, hm2⟩ := reject_ok_inv hev
        rw [hm2] at hget
        rcases mapGet_mapSet_cases hget with ⟨_, hd⟩ | ⟨_, hold⟩
        · subst hd
          subst hd2
          simp at hstate
        · exact hInv id d hold hstate
  | approve aid by_ just now =>
      intro id d hget hstate
      simp only [applyOp] at hget
      rcases hev : DecisionStateMachine.approve m now aid by_ just with e | p
      · rw [hev] at hget
        exact hInv id d hget hstate
      · rcases p with ⟨m2, d2⟩
        rw [hev] at hget
        obtain ⟨dOld, hgetOld, hpa, hd2, hm2⟩ := approve_ok_inv hev
        rw [hm2] at hget
        rcases mapGet_mapSet_cases hget with ⟨_, hd⟩ | ⟨_, hold⟩
        · subst hd
          subst hd2
          obtain ⟨w, hw, hwd⟩ := hInv aid dOld hgetOld (Or.inr (Or.inr hpa))
          exact ⟨w, by simpa using hw, hwd⟩
        · exact hInv id d hold hstate
  | cancel ccid reason now =>
      intro id d hget hstate
      simp only [applyOp] at hget
      rcases hev : DecisionStateMachine.cancel m now ccid reason with e | p
      · rw [hev] at hget
        exact hInv id d hget hstate
      · rcases p with ⟨m2, d2⟩
        rw [hev] at hget
        obtain ⟨dOld, hgetOld, hmem, hd2, hm2⟩ := cancel_ok_inv hev
        rw [hm2] at hget
        rcases mapGet_mapSet_cases hget with ⟨_, hd⟩ | ⟨_, hold⟩
        · subst hd
          subst hd2
          simp at hstate
        · exact hInv id d hold hstate

/-- Any call sequence preserves the commit-safety invariant. -/
theorem verdictInvariant_runOps (hashHex : String → String → String) :
    ∀ (ops : List LifecycleOp) (m : DecisionMap),
      VerdictInvariant m → VerdictInvariant (runOps hashHex m ops)
  | [], _, hInv => hInv
  | op :: ops, m, hInv =>
      verdictInvariant_runOps hashHex ops (applyOp hashHex m op)
        (verdictInvariant_applyOp hashHex m op hInv)

/-- The empty store satisfies the commit-safety invariant. -/
theorem verdictInvariant_empty : VerdictInvariant [] := by
  intro id d hget
  simp [mapGet, List.find?] at hget

/-- One transition call (never propose) preserves the untouchable core of
every stored decision and keeps it stored under its key. -/
theorem applyOp_sameCore (hashHex : String → String → String) (op : LifecycleOp)
    (hop : op.isTransition = true) (m : DecisionMap) (id : ContentAddress)
    (d : Decision) (hGet : mapGet m id = some d) :
    ∃ d2, mapGet (applyOp hashHex m op) id = some d2 ∧ sameCore d d2 := by
  cases op with
  | propose input now => simp [LifecycleOp.isTransition] at hop
  | evaluate eid v now =>
      simp only [applyOp]
      rcases hev : DecisionStateMachine.evaluate m now eid v with e | p
      · exact ⟨d, hGet, sameCore_refl d⟩
      · rcases p with ⟨m2, d2⟩
        obtain ⟨dOld, hgetOld, hmem, hd2, hm2⟩ := evaluate_ok_inv hev
        rw [hm2]
        by_cases hid : id = eid
        · subst hid
          have hEq : dOld = d := Option.some.inj (hgetOld.symm.trans hGet)
          subst hEq
          refine ⟨d2, mapGet_mapSet_self m id d2, ?_⟩
          subst hd2
          exact ⟨rfl, rfl, rfl, rfl, rfl, rfl⟩
        · rw [mapGet_mapSet_ne m eid id d2 hid]
          exact ⟨d, hGet, sameCore_refl d⟩
  | commit cid now =>
      simp only [applyOp]
      rcases hev : DecisionStateMachine.commit m now cid with e | p
      · exact ⟨d, hGet, sameCore_refl d⟩
      · rcases p with ⟨m2, d2⟩
        obtain ⟨dOld, hgetOld, hmem, hd2, hm2⟩ := commit_ok_inv hev
        rw [hm2]
        by_cases hid : id = cid
        · subst hid
          have hEq : dOld = d := Option.some.inj (hgetOld.symm.trans hGet)
          subst hEq
          refine ⟨d2, mapGet_mapSet_self m id d2, ?_⟩
          subst hd2
          exact ⟨rfl, rfl, rfl, rfl, rfl, rfl⟩
        · rw [mapGet_mapSet_ne m cid id d2 hid]
          exact ⟨d, hGet, sameCore_refl d⟩
  | reject rid reason now =>
      simp only [applyOp]
      rcases hev : DecisionStateMachine.reject m now rid reason with e | p
      · exact ⟨d, hGet, sameCore_refl d⟩
      · rcases p with ⟨m2, d2⟩
        obtain ⟨dOld, hgetOld, hmem, hd2, hm2⟩ := reject_ok_inv hev
        rw [hm2]
        by_cases hid : id = rid
        · subst hid
          have hEq : dOld = d := Option.some.inj (hgetOld.symm.trans hGet)
          subst hEq
          refine ⟨d2, mapGet_mapSet_self m id d2, ?_⟩
          subst hd2
          exact ⟨rfl, rfl, rfl, rfl, rfl, rfl⟩
        · rw [mapGet_mapSet_ne m rid id d2 hid]
          exact ⟨d, hGet, sameCore_refl d⟩
  | approve aid by_ just now =>
      simp only [applyOp]
      rcases hev : DecisionStateMachine.approve m now aid by_ just with e | p
      · exact ⟨d, hGet, sameCore_refl d⟩
      · rcases p with ⟨m2, d2⟩
        obtain ⟨dOld, hgetOld, hpa, hd2, hm2⟩ := approve_ok_inv hev
        rw [hm2]
        by_cases hid : id = aid
        · subst hid
          have hEq : dOld = d := Option.some.inj (hgetOld.symm.trans hGet)
          subst hEq
          refine ⟨d2, mapGet_mapSet_self m id d2, ?_⟩
          subst hd2
          exact ⟨rfl, rfl, rfl, rfl, rfl, rfl⟩
        · rw [mapGet_mapSet_ne m aid id d2 hid]
          exact ⟨d, hGet, sameCore_refl d⟩
  | cancel ccid reason now =>
      simp only [applyOp]
      rcases hev : DecisionStateMachine.cancel m now ccid reason with e | p
      · exact ⟨d, hGet, sameCore_refl d⟩
      · rcases p with ⟨m2, d2⟩
        obtain ⟨dOld, hgetOld, hmem, hd2, hm2⟩ := cancel_ok_inv hev
        rw [hm2]
        by_cases hid : id = ccid
        · subst hid
          have hEq : dOld = d := Option.some.inj (hgetOld.symm.trans hGet)
          subst hEq
          refine ⟨d2, mapGet_mapSet_self m id d2, ?_⟩
          subst hd2
          exact ⟨rfl, rfl, rfl, rfl, rfl, rfl⟩
        · rw [mapGet_mapSet_ne m ccid id d2 hid]
          exact ⟨d, hGet, sameCore_refl d⟩

/-- Any sequence of transition calls keeps a stored decision stored under
its original key with its core untouched. -/
theorem runOps_sameCore (hashHex : String → String → String) :
    ∀ (ops : List LifecycleOp) (m : DecisionMap) (id : ContentAddress) (d : Decision),
      (∀ op ∈ ops, op.isTransition = true) → mapGet m id = some d →
      ∃ d2, mapGet (runOps hashHex m ops) id = some d2 ∧ sameCore d d2
  | [], _, _, d, _, hGet => ⟨d, hGet, sameCore_refl d⟩
  | op :: ops, m, id, d, hall, hGet => by
      obtain ⟨d1, h1, hc1⟩ :=
        applyOp_sameCore hashHex op (hall op (List.mem_cons_self op ops)) m id d hGet
      obtain ⟨d2, h2, hc2⟩ :=
        runOps_sameCore hashHex ops (applyOp hashHex m op) id d1
          (fun o ho => hall o (List.mem_cons_of_mem op ho)) h1
      exact ⟨d2, h2, sameCore_trans hc1 hc2⟩

/-- A terminal state has no outgoing transitions. -/
theorem terminal_transitions_empty (s : DecisionState)
    (h : isTerminalState s = true) : VALID_TRANSITIONS s = [] := by
  cases s <;> simp [isTerminalState, VALID_TRANSITIONS] at h ⊢

/-- A terminal state is not PENDING_APPROVAL. -/
theorem terminal_not_pending (s : DecisionState)
    (h : isTerminalState s = true) : s ≠ DecisionState.PENDING_APPROVAL := by
  cases s <;> simp [isTerminalState, VALID_TRANSITIONS] at h ⊢

/-- C1 (amended): a commit call on a stored decision succeeds exactly when
the decision's state is EVALUATED or PENDING_APPROVAL (the transition table
allows the direct PENDING_APPROVAL to COMMITTED edge, so commit is not
restricted to EVALUATED and performs no verdict check of its own); and in
every store reachable by any sequence of state-machine calls from the empty
store, a decision in the COMMITTED state carries a verdict whose result is
not DENY, because a DENY verdict immediately auto-rejects at evaluation
time. -/
theorem C1_commit_guard_amended :
    (∀ (m : DecisionMap) (now : Timestamp) (id : ContentAddress) (d : Decision),
      mapGet m id = some d →
        ((∃ p, DecisionStateMachine.commit m now id = .ok p) ↔
          (d.state = DecisionState.EVALUATED ∨
            d.state = DecisionState.PENDING_APPROVAL))) ∧
    (∀ (hashHex : String → String → String) (ops : List LifecycleOp)
        (id : ContentAddress) (d : Decision),
      mapGet (runOps hashHex [] ops) id = some d →
      d.state = DecisionState.COMMITTED →
      ∃ v, d.verdict = some v ∧ v.result ≠ VerdictResult.DENY) := by
  constructor
  · intro m now id d hGet
    constructor
    · rintro ⟨⟨m2, d2⟩, hp⟩
      obtain ⟨dOld, hgetOld, hmem, _, _⟩ := commit_ok_inv hp
      have hEq : dOld = d := Option.some.inj (hgetOld.symm.trans hGet)
      subst hEq
      exact (commitEligible_iff dOld.state).mp hmem
    · intro hEl
      have hc : DecisionState.COMMITTED ∈ VALID_TRANSITIONS d.state :=
        (commitEligible_iff d.state).mpr hEl
      refine ⟨(mapSet m id { d with state := DecisionState.COMMITTED, concludedAt := some now },
        { d with state := DecisionState.COMMITTED, concludedAt := some now }), ?_⟩
      unfold DecisionStateMachine.commit DecisionStateMachine.validateTransition
      rw [hGet]
      simp [hc]
  · intro hashHex ops id d hGet hCommitted
    exact verdictInvariant_runOps hashHex ops [] verdictInvariant_empty id d hGet
      (Or.inl hCommitted)

/-- Counterexample to C1 as stated: after propose and evaluate with an
ESCALATE verdict the decision is stored in PENDING_APPROVAL, not EVALUATED,
and the commit call nevertheless succeeds. -/
theorem C1_counterexample :
    (mapGet cexEscalatedMap "sha256:h").map (fun d => d.state) =
        some DecisionState.PENDING_APPROVAL ∧
    exceptIsOk (DecisionStateMachine.commit cexEscalatedMap 2 "sha256:h") = true := by
  exact ⟨rfl, rfl⟩

/-- Witness for C1 (amended) at concrete runs: commit succeeds on the
concrete evaluated store, and the committed decision of the concrete happy
path carries a non-DENY verdict. -/
theorem C1_witness :
    (∃ p, DecisionStateMachine.commit wEvaluatedMap 2 "sha256:h" = .ok p) ∧
    (∃ v, wCommittedD.verdict = some v ∧ v.result ≠ VerdictResult.DENY) := by
  constructor
  · exact (C1_commit_guard_amended.1 wEvaluatedMap 2 "sha256:h" wEvaluatedD rfl).mpr
      (Or.inl rfl)
  · exact C1_commit_guard_amended.2 cexHash wCommitOps "sha256:h" wCommittedD rfl rfl

/-- C2 (amended): on a stored decision in a terminal state every subsequent
call fails and, with the Except embedding, returns no replacement store, so
the stored decision is unchanged; evaluate, commit, reject and cancel fail
with the invalid-transition error naming the current state and the (empty)
legal target set, while approve fails with the bare not-pending-approval
error that names neither. -/
theorem C2_terminal_rejects_amended (m : DecisionMap) (now : Timestamp)
    (id : ContentAddress) (d : Decision) (hGet : mapGet m id = some d)
    (hTerm : isTerminalState d.state = true) :
    (∀ v, DecisionStateMachine.evaluate m now id v =
      .error (.invalidTransition d.state DecisionState.EVALUATED
        (VALID_TRANSITIONS d.state))) ∧
    DecisionStateMachine.commit m now id =
      .error (.invalidTransition d.state DecisionState.COMMITTED
        (VALID_TRANSITIONS d.state)) ∧
    (∀ reason, DecisionStateMachine.reject m now id reason =
      .error (.invalidTransition d.state DecisionState.REJECTED
        (VALID_TRANSITIONS d.state))) ∧
    (∀ approver justification,
      DecisionStateMachine.approve m now id approver justification =
        .error (.notPendingApproval id)) ∧
    (∀ reason, DecisionStateMachine.cancel m now id reason =
      .error (.invalidTransition d.state DecisionState.CANCELLED
        (VALID_TRANSITIONS d.state))) ∧
    VALID_TRANSITIONS d.state = [] := by
  have hEmpty := terminal_transitions_empty d.state hTerm
  have hPA := terminal_not_pending d.state hTerm
  refine ⟨?_, ?_, ?_, ?_, ?_, hEmpty⟩
  · intro v
    unfold DecisionStateMachine.evaluate DecisionStateMachine.validateTransition
    rw [hGet]
    simp [hEmpty]
  · unfold DecisionStateMachine.commit DecisionStateMachine.validateTransition
    rw [hGet]
    simp [hEmpty]
  · intro reason
    unfold DecisionStateMachine.reject DecisionStateMachine.validateTransition
    rw [hGet]
    simp [hEmpty]
  · intro approver justification
    unfold DecisionStateMachine.approve
    rw [hGet]
    simp [hPA]
  · intro reason
    unfold DecisionStateMachine.cancel DecisionStateMachine.validateTransition
    rw [hGet]
    simp [hEmpty]

/-- Counterexample to C2 as stated: approve on a stored COMMITTED decision
fails with the not-pending-approval error, which is not the InvalidTransition
error and names neither the current state nor the legal target set. -/
theorem C2_counterexample :
    DecisionStateMachine.approve cexTerminalMap 3 "sha256:d" "sha256:approver" none =
        .error (.notPendingApproval "sha256:d") ∧
    DSError.isInvalidTransition (.notPendingApproval "sha256:d") = false :=
  ⟨rfl, rfl⟩

/-- Witness for C2 (amended) at the concrete committed store. -/
theorem C2_witness :
    mapGet cexTerminalMap "sha256:d" = some cexCommittedD ∧
    isTerminalState cexCommittedD.state = true ∧
    DecisionStateMachine.commit cexTerminalMap 9 "sha256:d" =
      .error (.invalidTransition cexCommittedD.state DecisionState.COMMITTED
        (VALID_TRANSITIONS cexCommittedD.state)) ∧
    DecisionStateMachine.approve cexTerminalMap 9 "sha256:d" "sha256:a" none =
      .error (.notPendingApproval "sha256:d") := by
  refine ⟨rfl, rfl, ?_, ?_⟩
  · exact (C2_terminal_rejects_amended cexTerminalMap 9 "sha256:d" cexCommittedD
      rfl rfl).2.1
  · exact (C2_terminal_rejects_amended cexTerminalMap 9 "sha256:d" cexCommittedD
      rfl rfl).2.2.2.1 "sha256:a" none

/-- C6: on a stored decision whose state legally transitions to EVALUATED,
evaluate records the verdict and evaluatedAt and derives the resulting state
from the verdict result: ALLOW and ANNOTATE yield EVALUATED, DENY yields
REJECTED with concludedAt set, ESCALATE yields PENDING_APPROVAL; the updated
decision is stored back under its id. -/
theorem C6_evaluate_result_mapping (m : DecisionMap) (now : Timestamp)
    (id : ContentAddress) (d : Decision) (verdict : DecisionVerdict)
    (hGet : mapGet m id = some d)
    (hLegal : DecisionState.EVALUATED ∈ VALID_TRANSITIONS d.state) :
    ∃ m2 d2, DecisionStateMachine.evaluate m now id verdict = .ok (m2, d2) ∧
      d2.verdict = some verdict ∧
      d2.evaluatedAt = some now ∧
      ((verdict.result = VerdictResult.ALLOW ∨ verdict.result = VerdictResult.ANNOTATE) →
        d2.state = DecisionState.EVALUATED) ∧
      (verdict.result = VerdictResult.DENY →
        d2.state = DecisionState.REJECTED ∧ d2.concludedAt = some now) ∧
      (verdict.result = VerdictResult.ESCALATE →
        d2.state = DecisionState.PENDING_APPROVAL) ∧
      mapGet m2 id = some d2 := by
  refine ⟨mapSet m id (DecisionStateMachine.evaluatedDecision d now verdict),
    DecisionStateMachine.evaluatedDecision d now verdict, ?_, rfl, rfl, ?_, ?_, ?_,
    mapGet_mapSet_self m id (DecisionStateMachine.evaluatedDecision d now verdict)⟩
  · unfold DecisionStateMachine.evaluate DecisionStateMachine.validateTransition
    rw [hGet]
    simp [hLegal]
  · rintro (h | h) <;>
      simp [DecisionStateMachine.evaluatedDecision, DecisionStateMachine.nextStateFor, h]
  · intro h
    constructor <;>
      simp [DecisionStateMachine.evaluatedDecision, DecisionStateMachine.nextStateFor, h]
  · intro h
    simp [DecisionStateMachine.evaluatedDecision, DecisionStateMachine.nextStateFor, h]

/-- Witness for C6 at the concrete proposed store with a DENY verdict. -/
theorem C6_witness :
    mapGet wProposedMap "sha256:h" = some wProposedD ∧
    DecisionState.EVALUATED ∈ VALID_TRANSITIONS wProposedD.state ∧
    (∃ m2 d2,
      DecisionStateMachine.evaluate wProposedMap 1 "sha256:h" (cexVerdict .DENY) =
        .ok (m2, d2) ∧
      d2.verdict = some (cexVerdict .DENY) ∧
      d2.evaluatedAt = some 1 ∧
      ((cexVerdict .DENY).result = VerdictResult.ALLOW ∨
          (cexVerdict .DENY).result = VerdictResult.ANNOTATE →
        d2.state = DecisionState.EVALUATED) ∧
      ((cexVerdict .DENY).result = VerdictResult.DENY →
        d2.state = DecisionState.REJECTED ∧ d2.concludedAt = some 1) ∧
      ((cexVerdict .DENY).result = VerdictResult.ESCALATE →
        d2.state = DecisionState.PENDING_APPROVAL) ∧
      mapGet m2 "sha256:h" = some d2) := by
  refine ⟨rfl, by decide, ?_⟩
  exact C6_evaluate_result_mapping wProposedMap 1 "sha256:h" wProposedD
    (cexVerdict .DENY) rfl (by decide)

/-- C10: the identity core of a decision (id, action, proposedBy,
contextRefs, alternativeIds, proposedAt) is never touched: propose
computes the id once from the PROPOSED-state content and stores the
decision under it, each of the five transition calls preserves the core of
the stored decision and stores the update back under the original id, and
any sequence of transition calls leaves the decision stored and retrievable
under its original id with its core intact. -/
theorem C10_identity_core_frame :
    (∀ (hashHex : String → String → String) (m : DecisionMap) (now : Timestamp)
        (input : ProposeDecisionInput),
      ((DecisionStateMachine.propose hashHex m now input).2).id =
        computeContentAddress hashHex DEFAULT_CONFIG
          (DecisionStateMachine.encodeDecisionData input now) ∧
      mapGet (DecisionStateMachine.propose hashHex m now input).1
          ((DecisionStateMachine.propose hashHex m now input).2).id =
        some (DecisionStateMachine.propose hashHex m now input).2) ∧
    (∀ (m : DecisionMap) (now : Timestamp) (id : ContentAddress)
        (v : DecisionVerdict) (m2 : DecisionMap) (d2 : Decision),
      DecisionStateMachine.evaluate m now id v = .ok (m2, d2) →
      ∃ d, mapGet m id = some d ∧ sameCore d d2 ∧ mapGet m2 id = some d2) ∧
    (∀ (m : DecisionMap) (now : Timestamp) (id : ContentAddress)
        (m2 : DecisionMap) (d2 : Decision),
      DecisionStateMachine.commit m now id = .ok (m2, d2) →
      ∃ d, mapGet m id = some d ∧ sameCore d d2 ∧ mapGet m2 id = some d2) ∧
    (∀ (m : DecisionMap) (now : Timestamp) (id : ContentAddress)
        (reason : Option String) (m2 : DecisionMap) (d2 : Decision),
      DecisionStateMachine.reject m now id reason = .ok (m2, d2) →
      ∃ d, mapGet m id = some d ∧ sameCore d d2 ∧ mapGet m2 id = some d2) ∧
    (∀ (m : DecisionMap) (now : Timestamp) (id : ContentAddress)
        (approver : ContentAddress) (justification : Option String)
        (m2 : DecisionMap) (d2 : Decision),
      DecisionStateMachine.approve m now id approver justification = .ok (m2, d2) →
      ∃ d, mapGet m id = some d ∧ sameCore d d2 ∧ mapGet m2 id = some d2) ∧
    (∀ (m : DecisionMap) (now : Timestamp) (id : ContentAddress)
        (reason : Option String) (m2 : DecisionMap) (d2 : Decision),
      DecisionStateMachine.cancel m now id reason = .ok (m2, d2) →
      ∃ d, mapGet m id = some d ∧ sameCore d d2 ∧ mapGet m2 id = some d2) ∧
    (∀ (hashHex : String → String → String) (ops : List LifecycleOp)
        (m : DecisionMap) (id : ContentAddress) (d : Decision),
      (∀ op ∈ ops, op.isTransition = true) → mapGet m id = some d →
      ∃ d2, mapGet (runOps hashHex m ops) id = some d2 ∧ sameCore d d2) := by
  refine ⟨?_, ?_, ?_, ?_, ?_, ?_, ?_⟩
  · intro hashHex m now input
    exact ⟨rfl, mapGet_mapSet_self m _ _⟩
  · intro m now id v m2 d2 h
    obtain ⟨d, hget, hmem, hd2, hm2⟩ := evaluate_ok_inv h
    subst hd2
    subst hm2
    exact ⟨d, hget, ⟨rfl, rfl, rfl, rfl, rfl, rfl⟩, mapGet_mapSet_self m id _⟩
  · intro m now id m2 d2 h
    obtain ⟨d, hget, hmem, hd2, hm2⟩ := commit_ok_inv h
    subst hd2
    subst hm2
    exact ⟨d, hget, ⟨rfl, rfl, rfl, rfl, rfl, rfl⟩, mapGet_mapSet_self m id _⟩
  · intro m now id reason m2 d2 h
    obtain ⟨d, hget, hmem, hd2, hm2⟩ := reject_ok_inv h
    subst hd2
    subst hm2
    exact ⟨d, hget, ⟨rfl, rfl, rfl, rfl, rfl, rfl⟩, mapGet_mapSet_self m id _⟩
  · intro m now id approver justification m2 d2 h
    obtain ⟨d, hget, hpa, hd2, hm2⟩ := approve_ok_inv h
    subst hd2
    subst hm2
    exact ⟨d, hget, ⟨rfl, rfl, rfl, rfl, rfl, rfl⟩, mapGet_mapSet_self m id _⟩
  · intro m now id reason m2 d2 h
    obtain ⟨d, hget, hmem, hd2, hm2⟩ := cancel_ok_inv h
    subst hd2
    subst hm2
    exact ⟨d, hget, ⟨rfl, rfl, rfl, rfl, rfl, rfl⟩, mapGet_mapSet_self m id _⟩
  · intro hashHex ops m id d hall hGet
    exact runOps_sameCore hashHex ops m id d hall hGet

/-- Witness for C10: the happy-path run keeps the proposed decision's core
intact under its original id. -/
theorem C10_witness :
    mapGet wProposedMap "sha256:h" = some wProposedD ∧
    (∃ d2, mapGet (runOps cexHash wProposedMap
        [.evaluate "sha256:h" (cexVerdict .ALLOW) 1, .commit "sha256:h" 2])
      "sha256:h" = some d2 ∧ sameCore wProposedD d2) := by
  refine ⟨rfl, ?_⟩
  exact C10_identity_core_frame.2.2.2.2.2.2 cexHash
    [.evaluate "sha256:h" (cexVerdict .ALLOW) 1, .commit "sha256:h" 2]
    wProposedMap "sha256:h" wProposedD (by decide) rfl

/-- C7: with P1 (BLOCK over financial:*) and P2 (ANNOTATE over
financial:transfer) registered, detectConflicts returns exactly one conflict
of type CONTRADICTION, with the two policies over the contained scope
financial:transfer, and resolving that conflict under the default rules
succeeds with strategy MOST_RESTRICTIVE and winning policy P1. -/
theorem C7_contradiction_scenario :
    (scenarioConflicts.filter
      (fun c => c.type == ConflictType.CONTRADICTION)).length = 1 ∧
    ((scenarioConflicts.filter
        (fun c => c.type == ConflictType.CONTRADICTION)).head?.map
      (fun c => (c.policies, c.scope,
        ConflictResolver.resolve ConflictResolver.defaultRules c))) =
      some ([scenarioP1, scenarioP2], "financial:transfer",
        { resolved := true
          strategy := ResolutionStrategy.MOST_RESTRICTIVE
          winningPolicy := some scenarioP1
          explanation := "Policy \"P1\" wins as the most restrictive"
          needsEscalation := false }) := by
  exact ⟨by decide, by decide⟩

/-- C8 (amended): on a stored approval request, startReview and
recordDecision by an actor outside the approvers list always fail (and, with
the Except embedding, return no replacement queue, so the stored request is
unchanged), and withdraw by an actor other than the original requester
always fails; the failure is the authorization error precisely when the
request's status lets the call reach the membership check (PENDING for
startReview, PENDING or IN_REVIEW for recordDecision and withdraw) — in an
already-settled status the earlier status check fails first with a
non-authorization error. -/
theorem C8_queue_authorization_amended (q : RequestMap) (id actor : ContentAddress)
    (r : ApprovalRequest) (hGet : reqGet q id = some r) :
    (r.approvers.contains actor = false →
      exceptIsOk (ApprovalQueue.startReview q id actor) = false ∧
      (∀ now decision justification conditions,
        exceptIsOk (ApprovalQueue.recordDecision q now id decision actor
          justification conditions) = false)) ∧
    (r.approvers.contains actor = false → r.status = ApprovalStatus.PENDING →
      ApprovalQueue.startReview q id actor = .error (.notAuthorizedToReview actor)) ∧
    (r.approvers.contains actor = false →
      (r.status = ApprovalStatus.PENDING ∨ r.status = ApprovalStatus.IN_REVIEW) →
      ∀ now decision justification conditions,
        ApprovalQueue.recordDecision q now id decision actor justification conditions =
          .error (.notAuthorizedToDecide actor)) ∧
    (r.requestedBy ≠ actor →
      exceptIsOk (ApprovalQueue.withdraw q id actor) = false ∧
      ((r.status = ApprovalStatus.PENDING ∨ r.status = ApprovalStatus.IN_REVIEW) →
        ApprovalQueue.withdraw q id actor = .error .onlyRequesterCanWithdraw)) := by
  refine ⟨?_, ?_, ?_, ?_⟩
  · intro hmem
    have hnotin : actor ∉ r.approvers := by simpa using hmem
    constructor
    · unfold ApprovalQueue.startReview
      rw [hGet]
      by_cases hst : r.status = ApprovalStatus.PENDING
      · simp [hst, hnotin, exceptIsOk]
      · simp [hst, exceptIsOk]
    · intro now decision justification conditions
      unfold ApprovalQueue.recordDecision
      rw [hGet]
      by_cases hst : r.status ≠ ApprovalStatus.PENDING ∧ r.status ≠ ApprovalStatus.IN_REVIEW
      · simp [hst, exceptIsOk]
      · simp only [hst, if_false]
        simp [hnotin, exceptIsOk]
  · intro hmem hst
    have hnotin : actor ∉ r.approvers := by simpa using hmem
    unfold ApprovalQueue.startReview
    rw [hGet]
    simp [hst, hnotin]
  · intro hmem hst now decision justification conditions
    have hnotin : actor ∉ r.approvers := by simpa using hmem
    unfold ApprovalQueue.recordDecision
    rw [hGet]
    have hok : ¬ (r.status ≠ ApprovalStatus.PENDING ∧ r.status ≠ ApprovalStatus.IN_REVIEW) := by
      rcases hst with h | h <;> simp [h]
    simp [hok, hnotin]
  · intro hreq
    constructor
    · unfold ApprovalQueue.withdraw
      rw [hGet]
      by_cases hst : r.status ≠ ApprovalStatus.PENDING ∧ r.status ≠ ApprovalStatus.IN_REVIEW
      · simp [hst, exceptIsOk]
      · simp only [hst, if_false]
        simp [hreq, exceptIsOk]
    · intro hst
      unfold ApprovalQueue.withdraw
      rw [hGet]
      have hok : ¬ (r.status ≠ ApprovalStatus.PENDING ∧ r.status ≠ ApprovalStatus.IN_REVIEW) := by
        rcases hst with h | h <;> simp [h]
      simp [hok, hreq]

/-- Counterexample to C8 as stated: the designated approver starts review,
then an outside actor calls startReview on the now IN_REVIEW request; the
actor is not in approvers, yet the failure is the not-pending status error,
not an authorization error. -/
theorem C8_counterexample :
    (cexRequest2.map (fun r => (r.status, r.approvers.contains "sha256:out"))) =
      some (ApprovalStatus.IN_REVIEW, false) ∧
    ApprovalQueue.startReview cexQueue2 "sha256:h" "sha256:out" =
      .error (.notPending "sha256:h" ApprovalStatus.IN_REVIEW) ∧
    AQError.isAuthorizationError (.notPending "sha256:h" ApprovalStatus.IN_REVIEW) =
      false :=
  ⟨rfl, rfl, rfl⟩

/-- Witness for C8 (amended) at the concrete pending queue and an outside
actor. -/
theorem C8_witness :
    reqGet wQueue "sha256:r" = some wRequest ∧
    wRequest.approvers.contains "sha256:out" = false ∧
    ApprovalQueue.startReview wQueue "sha256:r" "sha256:out" =
      .error (.notAuthorizedToReview "sha256:out") ∧
    ApprovalQueue.recordDecision wQueue 1 "sha256:r" "approved" "sha256:out" none none =
      .error (.notAuthorizedToDecide "sha256:out") ∧
    ApprovalQueue.withdraw wQueue "sha256:r" "sha256:out" =
      .error .onlyRequesterCanWithdraw := by
  refine ⟨rfl, rfl, ?_, ?_, ?_⟩
  · exact (C8_queue_authorization_amended wQueue "sha256:r" "sha256:out" wRequest
      rfl).2.1 rfl rfl
  · exact (C8_queue_authorization_amended wQueue "sha256:r" "sha256:out" wRequest
      rfl).2.2.1 rfl (Or.inl rfl) 1 "approved" none none
  · exact ((C8_queue_authorization_amended wQueue "sha256:r" "sha256:out" wRequest
      rfl).2.2.2 (by decide)).2 (Or.inl rfl)

/-- The code-unit order, read through toNat. -/
theorem uint32_lt_toNat {a b : UInt32} (h : a < b) : a.toNat < b.toNat :=
  UInt32.lt_def.mp h

/-- The code-unit order, built from toNat. -/
theorem uint32_toNat_lt {a b : UInt32} (h : a.toNat < b.toNat) : a < b :=
  UInt32.lt_def.mpr h

/-- Distinct code units are strictly ordered one way or the other. -/
theorem uint32_lt_or_lt_of_ne {a b : UInt32} (h : a ≠ b) : a < b ∨ b < a := by
  have hn : a.toNat ≠ b.toNat := fun hc => h (UInt32.toNat.inj hc)
  rcases Nat.lt_or_ge a.toNat b.toNat with hlt | hge
  · exact Or.inl (UInt32.lt_def.mpr hlt)
  · exact Or.inr (UInt32.lt_def.mpr (Nat.lt_of_le_of_ne hge (fun hc => hn hc.symm)))

/-- The character-list order is total. -/
theorem strLeAux_total : ∀ (as bs : List Char),
    strLeAux as bs = true ∨ strLeAux bs as = true
  | [], _ => Or.inl rfl
  | _ :: _, [] => Or.inr rfl
  | a :: as, b :: bs => by
      by_cases hab : a = b
      · subst hab
        rcases strLeAux_total as bs with h | h
        · exact Or.inl (by simp [strLeAux, h])
        · exact Or.inr (by simp [strLeAux, h])
      · have hba : ¬ b = a := fun hc => hab hc.symm
        have hne : a.val ≠ b.val := fun hc => hab (Char.ext hc)
        rcases uint32_lt_or_lt_of_ne hne with h | h
        · exact Or.inl (by simp [strLeAux, hab, h])
        · exact Or.inr (by simp [strLeAux, hba, h])

/-- The character-list order is antisymmetric. -/
theorem strLeAux_antisymm : ∀ (as bs : List Char),
    strLeAux as bs = true → strLeAux bs as = true → as = bs
  | [], [], _, _ => rfl
  | [], _ :: _, _, h2 => by simp [strLeAux] at h2
  | _ :: _, [], h1, _ => by simp [strLeAux] at h1
  | a :: as, b :: bs, h1, h2 => by
      by_cases hab : a = b
      · subst hab
        have h1x : strLeAux as bs = true := by simpa [strLeAux] using h1
        have h2x : strLeAux bs as = true := by simpa [strLeAux] using h2
        rw [strLeAux_antisymm as bs h1x h2x]
      · have hba : ¬ b = a := fun hc => hab hc.symm
        have hl1 : a.val < b.val := by simpa [strLeAux, hab] using h1
        have hl2 : b.val < a.val := by simpa [strLeAux, hba] using h2
        exact absurd (uint32_lt_toNat hl2) (Nat.lt_asymm (uint32_lt_toNat hl1))

/-- The character-list order is transitive. -/
theorem strLeAux_trans : ∀ (as bs cs : List Char),
    strLeAux as bs = true → strLeAux bs cs = true → strLeAux as cs = true
  | [], _, _, _, _ => rfl
  | _ :: _, [], _, h1, _ => by simp [strLeAux] at h1
  | _ :: _, _ :: _, [], _, h2 => by simp [strLeAux] at h2
  | a :: as, b :: bs, c :: cs, h1, h2 => by
      by_cases hab : a = b <;> by_cases hbc : b = c
      · subst hab
        subst hbc
        have h1x : strLeAux as bs = true := by simpa [strLeAux] using h1
        have h2x : strLeAux bs cs = true := by simpa [strLeAux] using h2
        simp [strLeAux, strLeAux_trans as bs cs h1x h2x]
      · subst hab
        have h2x : a.val < c.val := by simpa [strLeAux, hbc] using h2
        simp [strLeAux, hbc, h2x]
      · subst hbc
        have h1x : a.val < b.val := by simpa [strLeAux, hab] using h1
        simp [strLeAux, hab, h1x]
      · have h1x : a.val < b.val := by simpa [strLeAux, hab] using h1
        have h2x : b.val < c.val := by simpa [strLeAux, hbc] using h2
        have hac : a.val < c.val :=
          uint32_toNat_lt (Nat.lt_trans (uint32_lt_toNat h1x) (uint32_lt_toNat h2x))
        have hne : ¬ a = c := fun hc => by
          subst hc
          exact absurd (uint32_lt_toNat hac) (Nat.lt_irrefl a.val.toNat)
        simp [strLeAux, hne, hac]

/-- The embedded JS string order is antisymmetric. -/
theorem strLe_antisymm {a b : String} (h1 : strLe a b = true)
    (h2 : strLe b a = true) : a = b := by
  have hd := strLeAux_antisymm a.data b.data h1 h2
  cases a
  cases b
  exact congrArg String.mk hd

/-- The key order on rendered fields is total. -/
theorem keyLe_total : IsTotal (String × String) keyLe :=
  ⟨fun a b => strLeAux_total a.1.data b.1.data⟩

/-- The key order on rendered fields is transitive. -/
theorem keyLe_trans : IsTrans (String × String) keyLe :=
  ⟨fun a b c h1 h2 => strLeAux_trans a.1.data b.1.data c.1.data h1 h2⟩

/-- Two sorted field lists with the same entries and distinct keys are
equal. -/
theorem sorted_key_nodup_eq : ∀ (l₁ l₂ : List (String × String)),
    l₁.Perm l₂ → l₁.Sorted keyLe → l₂.Sorted keyLe →
    (l₁.map Prod.fst).Nodup → l₁ = l₂
  | [], l₂, hp, _, _, _ => hp.nil_eq
  | a :: t, [], hp, _, _, _ => by
      have := hp.symm.nil_eq
      exact absurd this (by simp)
  | a :: t, b :: t₂, hp, hs1, hs2, hn => by
      simp only [List.map_cons, List.nodup_cons] at hn
      have hab : a = b := by
        by_contra hne
        have haIn : a ∈ b :: t₂ := hp.mem_iff.mp (List.mem_cons_self a t)
        have hbIn : b ∈ a :: t := hp.mem_iff.mpr (List.mem_cons_self b t₂)
        have haT2 : a ∈ t₂ := by
          rcases List.mem_cons.mp haIn with h | h
          · exact absurd h hne
          · exact h
        have hbT : b ∈ t := by
          rcases List.mem_cons.mp hbIn with h | h
          · exact absurd h.symm hne
          · exact h
        have h1 : keyLe a b := (List.sorted_cons.mp hs1).1 b hbT
        have h2 : keyLe b a := (List.sorted_cons.mp hs2).1 a haT2
        have hkey : a.1 = b.1 := strLe_antisymm h1 h2
        have hmem : a.1 ∈ t.map Prod.fst := by
          rw [hkey]
          exact List.mem_map_of_mem Prod.fst hbT
        exact hn.1 hmem
      subst hab
      have hpt : t.Perm t₂ := hp.cons_inv
      rw [sorted_key_nodup_eq t t₂ hpt (List.sorted_cons.mp hs1).2
        (List.sorted_cons.mp hs2).2 hn.2]

/-- canonicalizeFields is a map over the field list. -/
theorem canonicalizeFields_eq_map (l : List (String × JsValue)) :
    canonicalizeFields l = l.map (fun p => (p.1, canonicalize p.2)) := by
  induction l with
  | nil => rfl
  | cons p t ih =>
      cases p
      simp [canonicalizeFields, ih]

/-- canonicalizeList is a map over the element list. -/
theorem canonicalizeList_eq_map (l : List JsValue) :
    canonicalizeList l = l.map canonicalize := by
  induction l with
  | nil => rfl
  | cons v t ih => simp [canonicalizeList, ih]

mutual
/-- Key-order-equivalent JS values canonicalize to the same text: the
content of an object determines its canonical form regardless of the order
its fields were written in. -/
theorem kpe_canonicalize {v w : JsValue} (h : KeyPermEquiv v w) :
    canonicalize v = canonicalize w := by
  cases h with
  | vnull => rfl
  | str s => rfl
  | num n => rfl
  | bool b => rfl
  | arr hl => simp [canonicalize, kpeList_canonicalize hl]
  | obj hf hperm hnodup =>
      rename_i l₁ l₂ l₃
      have hc12 : canonicalizeFields l₁ = canonicalizeFields l₂ :=
        kpeFields_canonicalize hf
      have hp23 : (canonicalizeFields l₂).Perm (canonicalizeFields l₃) := by
        rw [canonicalizeFields_eq_map, canonicalizeFields_eq_map]
        exact hperm.map _
      have hp13 : (canonicalizeFields l₁).Perm (canonicalizeFields l₃) := by
        rw [hc12]
        exact hp23
      have hkeys : (canonicalizeFields l₁).map Prod.fst = l₁.map Prod.fst := by
        rw [canonicalizeFields_eq_map, List.map_map]
        rfl
      have hn1 : ((canonicalizeFields l₁).map Prod.fst).Nodup := by
        rw [hkeys]
        exact hnodup
      have hsorted1 : (List.insertionSort keyLe (canonicalizeFields l₁)).Sorted keyLe :=
        @List.sorted_insertionSort _ keyLe _ keyLe_total keyLe_trans _
      have hsorted3 : (List.insertionSort keyLe (canonicalizeFields l₃)).Sorted keyLe :=
        @List.sorted_insertionSort _ keyLe _ keyLe_total keyLe_trans _
      have hpermSorted :
          (List.insertionSort keyLe (canonicalizeFields l₁)).Perm
            (List.insertionSort keyLe (canonicalizeFields l₃)) :=
        ((List.perm_insertionSort keyLe _).trans hp13).trans
          (List.perm_insertionSort keyLe _).symm
      have hnods : ((List.insertionSort keyLe (canonicalizeFields l₁)).map
          Prod.fst).Nodup :=
        (((List.perm_insertionSort keyLe
          (canonicalizeFields l₁)).map Prod.fst).nodup_iff).mpr hn1
      have heq := sorted_key_nodup_eq _ _ hpermSorted hsorted1 hsorted3 hnods
      simp only [canonicalize]
      rw [heq]

/-- Elementwise-equivalent arrays canonicalize elementwise equally. -/
theorem kpeList_canonicalize {xs ys : List JsValue} (h : KPEList xs ys) :
    canonicalizeList xs = canonicalizeList ys := by
  cases h with
  | nil => rfl
  | cons hx ht => simp [canonicalizeList, kpe_canonicalize hx, kpeList_canonicalize ht]

/-- Fieldwise-equivalent field lists canonicalize fieldwise equally. -/
theorem kpeFields_canonicalize {ps qs : List (String × JsValue)}
    (h : KPEFields ps qs) : canonicalizeFields ps = canonicalizeFields qs := by
  cases h with
  | cons hk hv ht =>
      have h1 := kpe_canonicalize hv
      have h2 := kpeFields_canonicalize ht
      simp only [canonicalizeFields_eq_map, List.map_cons] at h2 ⊢
      rw [hk, h1, h2]
  | nil => rfl
end

/-- C9: computeContentAddress is deterministic (a pure function of the
canonical value), and two values containing the same key-value pairs with
object fields in any order receive the same content address, for every
digest function and configuration. -/
theorem C9_content_address_order_independent (hashHex : String → String → String)
    (config : ContentAddressConfig) (v w : JsValue) (h : KeyPermEquiv v w) :
    computeContentAddress hashHex config v = computeContentAddress hashHex config v ∧
    computeContentAddress hashHex config v = computeContentAddress hashHex config w := by
  refine ⟨rfl, ?_⟩
  unfold computeContentAddress
  rw [kpe_canonicalize h]

/-- Witness for C9 at two concrete objects whose fields are reordered at
both nesting levels. -/
theorem C9_witness :
    KeyPermEquiv wJson1 wJson2 ∧
    computeContentAddress cexHash DEFAULT_CONFIG wJson1 =
      computeContentAddress cexHash DEFAULT_CONFIG wJson2 := by
  have hInner : KeyPermEquiv (JsValue.obj [("y", .str "v"), ("x", .bool true)])
      (JsValue.obj [("x", .bool true), ("y", .str "v")]) :=
    @KeyPermEquiv.obj [("y", .str "v"), ("x", .bool true)]
      [("y", .str "v"), ("x", .bool true)] [("x", .bool true), ("y", .str "v")]
      (KPEFields.cons rfl (KeyPermEquiv.str "v")
        (KPEFields.cons rfl (KeyPermEquiv.bool true) KPEFields.nil))
      (List.Perm.swap _ _ _) (by decide)
  have h : KeyPermEquiv wJson1 wJson2 :=
    @KeyPermEquiv.obj
      [("b", .num 1), ("a", .obj [("y", .str "v"), ("x", .bool true)])]
      [("b", .num 1), ("a", .obj [("x", .bool true), ("y", .str "v")])]
      [("a", .obj [("x", .bool true), ("y", .str "v")]), ("b", .num 1)]
      (KPEFields.cons rfl (KeyPermEquiv.num 1)
        (KPEFields.cons rfl hInner KPEFields.nil))
      (List.Perm.swap _ _ _) (by decide)
  exact ⟨h,
    (C9_content_address_order_independent cexHash DEFAULT_CONFIG wJson1 wJson2 h).2⟩

end ContextGraph
